import Mathlib

/-!
Verification development for the Super-PILOT / Time Warp multi-dialect
interpreter (Rust sources under `src/`).

Modelling conventions for the shallow embedding:

* `f64` / `f32` values are modelled as rationals `ℚ` (exact for every
  computation the claims exercise); the turtle plane is kept polymorphic
  over a linear ordered field with a floor so the trigonometric claims can
  be read over `ℝ` while everything else stays computable over `ℚ`.
* `HashMap` is modelled as an association list with newest-binding-first
  lookup (`insert` prepends, `get` returns the most recent binding), which
  is extensionally the map behaviour the interpreter relies on.
* Rust `String`s are modelled as `List Char` (`Str`); all the programs in
  the claims are ASCII, where Rust's `trim`, `to_uppercase` and
  `split_whitespace` agree with the ASCII versions embedded here.
* Transcendental `f64` functions (SIN, COS, ... and the degree→displacement
  trigonometry of the turtle) are not representable over `ℚ`; the embedding
  is parameterised by a `FloatFns` / `Trig` record of those maps, so no
  behaviour is stubbed: theorems quantify over the record, and the one
  claim that needs real trigonometry instantiates it with `Real.sin` /
  `Real.cos`.
-/

namespace TimeWarp

deriving instance DecidableEq for Except

/-- Rust strings, modelled as their character lists (ASCII programs). -/
abbrev Str := List Char

/-- Coerce a Lean string literal into the model's string type. -/
def str (s : String) : Str := s.toList

/-- ASCII model of `char::is_whitespace` (the claims' programs only contain
these whitespace characters). -/
def isWs (c : Char) : Bool := c = ' ' || c = '\t' || c = '\n' || c = '\r'

/-- Model of `str::trim`. -/
def trimL (s : Str) : Str := ((s.dropWhile isWs).reverse.dropWhile isWs).reverse

/-- ASCII model of `str::to_uppercase`. -/
def upperL (s : Str) : Str := s.map Char.toUpper

/-- First whitespace-delimited token of `split_whitespace` (`""` if none). -/
def firstWordL (s : Str) : Str := (s.dropWhile isWs).takeWhile (fun c => !isWs c)

/-- Model of `splitn(2, char::is_whitespace)`: the segment before the first
whitespace character, and (if that separator exists) the remainder after it. -/
def splitn2Ws (s : Str) : Str × Option Str :=
  let first := s.takeWhile (fun c => !isWs c)
  let rest := s.drop (first.length + 1)
  if first.length = s.length then (first, none) else (first, some rest)

/-- All whitespace-delimited words of `split_whitespace`. -/
def splitWsAux : Str → Str → List Str
  | [], cur => if cur.isEmpty then [] else [cur.reverse]
  | c :: cs, cur =>
    if isWs c then
      if cur.isEmpty then splitWsAux cs [] else cur.reverse :: splitWsAux cs []
    else splitWsAux cs (c :: cur)

def splitWs (s : Str) : List Str := splitWsAux s []

/-- Association-list model of `HashMap`: lookup returns the newest binding. -/
def lookupMap {α : Type} (m : List (Str × α)) (k : Str) : Option α :=
  match m with
  | [] => none
  | (k', v) :: rest => if k' = k then some v else lookupMap rest k

/-- Association-list model of `HashMap::insert` (newest binding first). -/
def insertMap {α : Type} (m : List (Str × α)) (k : Str) (v : α) : List (Str × α) :=
  (k, v) :: m

def containsMap {α : Type} (m : List (Str × α)) (k : Str) : Bool :=
  (lookupMap m k).isSome

/-! ## Kernel-reducible rational arithmetic

Mathlib's `Rat.add`, `Rat.mul`, … are `@[irreducible]`, so closed
interpreter runs could not be settled by `decide`/`rfl`.  These wrappers
compute the same values through `mkRat` (which does reduce); the `_eq`
lemmas in the theorem section identify them with the standard operations. -/

def qAdd (a b : ℚ) : ℚ := mkRat (a.num * b.den + b.num * a.den) (a.den * b.den)

def qSub (a b : ℚ) : ℚ := mkRat (a.num * b.den - b.num * a.den) (a.den * b.den)

def qMul (a b : ℚ) : ℚ := mkRat (a.num * b.num) (a.den * b.den)

def qInv (a : ℚ) : ℚ := Rat.divInt a.den a.num

def qDiv (a b : ℚ) : ℚ := qMul a (qInv b)

def qAbs (a : ℚ) : ℚ := if a.num < 0 then -a else a

def qPow (a : ℚ) : ℕ → ℚ
  | 0 => 1
  | n + 1 => qMul (qPow a n) a

/-- Digits of a natural number (base 10), e.g. `natDigits 12 = ['1','2']`. -/
def natDigits (n : ℕ) : Str := Nat.toDigits 10 n

/-- Decimal rendering of an integer. -/
def intStr (i : ℤ) : Str := if i < 0 then '-' :: natDigits i.natAbs else natDigits i.toNat

/-- Model of `format!("{}", v)` for an `f64` value: exact for the integral
values that the claims print; non-integral values (never exercised by a
claim) are rendered here as `num/den` whereas Rust prints a decimal
expansion. -/
def fmtNum (q : ℚ) : Str :=
  if q.den = 1 then intStr q.num else intStr q.num ++ ('/' :: natDigits q.den)

/-- Value of a digit string, most significant first. -/
def digitsVal (l : Str) : ℕ := l.foldl (fun a c => 10 * a + (c.toNat - '0'.toNat)) 0

/-- Model of `str::parse::<usize>()` (optional `+` sign, then digits). -/
def parseUsize (s : Str) : Option ℕ :=
  let body := match s with | '+' :: rest => rest | _ => s
  if body.isEmpty || !body.all Char.isDigit then none else some (digitsVal body)

/-- Model of `str::parse::<f64>()` on plain decimal literals (optional sign,
digits, at most one decimal point, at least one digit) — the only shapes the
claims exercise.  The value is the exact rational, where Rust rounds to the
nearest `f64`. -/
def parseF64 (s : Str) : Option ℚ :=
  let (sign, body) : ℚ × Str :=
    match s with
    | '-' :: rest => (-1, rest)
    | '+' :: rest => (1, rest)
    | _ => (1, s)
  if body.isEmpty || !body.all (fun c => c.isDigit || c = '.')
      || !body.any Char.isDigit || 1 < (body.filter (· = '.')).length then
    none
  else
    let intPart := body.takeWhile Char.isDigit
    let frac := (body.dropWhile Char.isDigit).drop 1
    some (qMul sign
      (qAdd (mkRat (digitsVal intPart) 1)
        (qDiv (mkRat (digitsVal frac) 1) (qPow 10 frac.length))))

/-! ## Expression evaluator (`time_warp_unified/src/utils/expr_eval.rs`) -/

/-- Machine epsilon of `f64` (`f64::EPSILON = 2⁻⁵²`), the division guard. -/
def f64Epsilon : ℚ := mkRat 1 (2 ^ 52)

/-- `enum Token` of the expression evaluator. -/
inductive Token where
  | number (value : ℚ)
  | var (name : Str)
  | func (name : Str)
  | op (c : Char)
  | lparen
  | rparen
  | comma
deriving DecidableEq

def isNumChar (c : Char) : Bool := c.isDigit || c = '.'

def isNameStart (c : Char) : Bool := c.isAlpha || c = '_'

def isNameChar (c : Char) : Bool := c.isAlphanum || c = '_'

/-- `ExpressionEvaluator::tokenize`.  The accumulator holds the emitted
tokens newest-first (so `tokens.last()` is its head); the result is reversed
at the end.  The fuel argument only makes the recursion structural (each
step consumes at least one character, so starting fuel above the input
length the exhaustion branch is unreachable). -/
def tokenizeAux : ℕ → Str → List Token → Except Str (List Token)
  | 0, _, _ => .error (str "tokenizer fuel exhausted")
  | _ + 1, [], acc => .ok acc.reverse
  | fuel + 1, c :: cs, acc =>
    if c = ' ' || c = '\t' || c = '\n' then
      tokenizeAux fuel cs acc
    else if isNumChar c then
      match parseF64 ((c :: cs).takeWhile isNumChar) with
      | some q => tokenizeAux fuel (cs.dropWhile isNumChar) (.number q :: acc)
      | none => .error (str "invalid float literal")
    else if isNameStart c then
      let name := (c :: cs).takeWhile isNameChar
      let rest := cs.dropWhile isNameChar
      match rest with
      | '(' :: _ => tokenizeAux fuel rest (.func (upperL name) :: acc)
      | _ => tokenizeAux fuel rest (.var (upperL name) :: acc)
    else if c = '+' then
      tokenizeAux fuel cs (.op '+' :: acc)
    else if c = '-' then
      let isUnary :=
        match acc with
        | [] => true
        | .op _ :: _ => true
        | .lparen :: _ => true
        | .comma :: _ => true
        | _ => false
      let nextIsDigit := match cs with | d :: _ => d.isDigit | [] => false
      if isUnary && nextIsDigit then
        match parseF64 ('-' :: cs.takeWhile isNumChar) with
        | some q => tokenizeAux fuel (cs.dropWhile isNumChar) (.number q :: acc)
        | none => .error (str "invalid float literal")
      else
        tokenizeAux fuel cs (.op '-' :: acc)
    else if c = '*' || c = '/' || c = '^' || c = '%' then
      tokenizeAux fuel cs (.op c :: acc)
    else if c = '(' then
      tokenizeAux fuel cs (.lparen :: acc)
    else if c = ')' then
      tokenizeAux fuel cs (.rparen :: acc)
    else if c = ',' then
      tokenizeAux fuel cs (.comma :: acc)
    else
      .error (str "Invalid character: " ++ [c])

def tokenize (s : Str) : Except Str (List Token) := tokenizeAux (s.length + 1) s []

/-- `ExpressionEvaluator::precedence`. -/
def prec (c : Char) : ℕ :=
  if c = '+' || c = '-' then 1
  else if c = '*' || c = '/' || c = '%' then 2
  else if c = '^' then 3
  else 0

/-- The operator-popping loop of `to_rpn`: pop operators whose precedence is
`≥ pv`, stopping at anything that is not an operator. -/
def popWhileGE (pv : ℕ) : List Token → List Token × List Token
  | .op c :: rest =>
    if pv ≤ prec c then
      let (o, r) := popWhileGE pv rest
      (.op c :: o, r)
    else ([], .op c :: rest)
  | st => ([], st)

/-- The right-paren loop of `to_rpn`: pop everything down to (and including)
the first left paren; `.2` is the stack below that paren. -/
def popUntilLParen : List Token → List Token × List Token
  | [] => ([], [])
  | .lparen :: rest => ([], rest)
  | t :: rest =>
    let (o, r) := popUntilLParen rest
    (t :: o, r)

/-- The comma loop of `to_rpn`: pop down to the first left paren, leaving it
on the stack. -/
def popToLParenKeep : List Token → List Token × List Token
  | [] => ([], [])
  | .lparen :: rest => ([], .lparen :: rest)
  | t :: rest =>
    let (o, r) := popToLParenKeep rest
    (t :: o, r)

/-- The right-paren handling of `to_rpn` (lines 160–172): pop down to the
left paren, then additionally pop a function token if one sits below it. -/
def afterRParen (st : List Token) : List Token × List Token :=
  let (popped, st1) := popUntilLParen st
  match st1 with
  | .func f :: st2 => (popped ++ [.func f], st2)
  | _ => (popped, st1)

/-- One token of the shunting-yard pass: (tokens emitted to the output,
new operator stack). -/
def shuntStep : Token → List Token → List Token × List Token
  | .number q, st => ([.number q], st)
  | .var n, st => ([.var n], st)
  | .func n, st => ([], .func n :: st)
  | .op c, st =>
    let (popped, st1) := popWhileGE (prec c) st
    (popped, .op c :: st1)
  | .lparen, st => ([], .lparen :: st)
  | .rparen, st => afterRParen st
  | .comma, st => popToLParenKeep st

/-- The shunting-yard pass of `ExpressionEvaluator::to_rpn`, phrased as
(emitted output, final operator stack); the stack's head is its top. -/
def shunt : List Token → List Token → List Token × List Token
  | [], st => ([], st)
  | t :: ts, st =>
    let (e, st1) := shuntStep t st
    let (o, st') := shunt ts st1
    (e ++ o, st')

/-- `ExpressionEvaluator::to_rpn`: run the shunting pass, then flush the
remaining operator stack into the output (the Rust `Result` is always `Ok`). -/
def to_rpn (tokens : List Token) : List Token :=
  let (o, st) := shunt tokens []
  o ++ st

/-- Truncation toward zero of a rational (model of `f64` `%`'s implied
truncated division). -/
def ratTrunc (q : ℚ) : ℤ := q.num / q.den

/-- Model of `f64::powf`: exact for integer exponents; a fractional exponent
(never exercised by a claim) is modelled as 0 where Rust computes a real
power. -/
def powfModel (a b : ℚ) : ℚ :=
  if b.den = 1 then a ^ b.num else 0

/-- Model of Rust's `f64` `%` (remainder with truncated division).  For a
zero divisor Rust produces NaN, which has no rational counterpart; that case
is not exercised by any claim. -/
def fmodModel (a b : ℚ) : ℚ := a - b * ratTrunc (a / b)

/-- Round half away from zero (model of `f64::round`). -/
def roundAway (a : ℚ) : ℚ := if 0 ≤ a then (⌊a + 1 / 2⌋ : ℤ) else -(⌊-a + 1 / 2⌋ : ℤ)

/-- The binary-operator step of `evaluate_rpn` (`expr_eval.rs` lines
208–221): `a` is next-to-top, `b` is top of the operand stack. -/
def applyBinOp (c : Char) (a b : ℚ) : Except Str ℚ :=
  if c = '+' then .ok (qAdd a b)
  else if c = '-' then .ok (qSub a b)
  else if c = '*' then .ok (qMul a b)
  else if c = '/' then
    if qAbs b < f64Epsilon then .error (str "Division by zero") else .ok (qDiv a b)
  else if c = '^' then .ok (powfModel a b)
  else if c = '%' then .ok (fmodModel a b)
  else .error (str "Unknown operator: " ++ [c])

/-- The transcendental `f64` functions used by `call_function`, which have no
exact rational counterpart.  The embedding is parameterised by this record
(nothing is stubbed: theorems quantify over it). -/
structure FloatFns where
  sinF : ℚ → ℚ
  cosF : ℚ → ℚ
  tanF : ℚ → ℚ
  atanF : ℚ → ℚ
  sqrtF : ℚ → ℚ
  expF : ℚ → ℚ
  lnF : ℚ → ℚ
  log10F : ℚ → ℚ
  rndF : ℚ

/-- A concrete instantiation of `FloatFns` used by witnesses. -/
def zeroFns : FloatFns :=
  ⟨fun _ => 0, fun _ => 0, fun _ => 0, fun _ => 0, fun _ => 0, fun _ => 0,
   fun _ => 0, fun _ => 0, 0⟩

/-- `ExpressionEvaluator::call_function`: pops the arguments of the named
function from the operand stack and returns (result, remaining stack). -/
def call_function (fns : FloatFns) (name : Str) (stack : List ℚ) :
    Except Str (ℚ × List ℚ) :=
  let un (f : ℚ → ℚ) (msg : String) : Except Str (ℚ × List ℚ) :=
    match stack with
    | a :: r => .ok (f a, r)
    | [] => .error (str msg)
  let bin (f : ℚ → ℚ → ℚ) (msg : String) : Except Str (ℚ × List ℚ) :=
    match stack with
    | b :: a :: r => .ok (f a b, r)
    | _ => .error (str msg)
  if name = str "SIN" then un fns.sinF "SIN: missing argument"
  else if name = str "COS" then un fns.cosF "COS: missing argument"
  else if name = str "TAN" then un fns.tanF "TAN: missing argument"
  else if name = str "ATAN" || name = str "ATN" then un fns.atanF "ATAN: missing argument"
  else if name = str "SQRT" || name = str "SQR" then un fns.sqrtF "SQRT: missing argument"
  else if name = str "ABS" then un (fun a => |a|) "ABS: missing argument"
  else if name = str "EXP" then un fns.expF "EXP: missing argument"
  else if name = str "LOG" || name = str "LN" then un fns.lnF "LOG: missing argument"
  else if name = str "LOG10" then un fns.log10F "LOG10: missing argument"
  else if name = str "INT" then un (fun a => (⌊a⌋ : ℤ)) "INT: missing argument"
  else if name = str "ROUND" then un roundAway "ROUND: missing argument"
  else if name = str "SGN" then
    un (fun a => if 0 < a then 1 else if a < 0 then -1 else 0) "SGN: missing argument"
  else if name = str "RND" then .ok (fns.rndF, stack)
  else if name = str "MAX" then bin max "MAX: missing argument"
  else if name = str "MIN" then bin min "MIN: missing argument"
  else if name = str "POW" then bin powfModel "POW: missing argument"
  else .error (str "Unknown function: " ++ name)

/-- The token loop of `ExpressionEvaluator::evaluate_rpn`; the operand
stack's head is its top. -/
def evalRPNAux (fns : FloatFns) (vars : List (Str × ℚ)) :
    List Token → List ℚ → Except Str (List ℚ)
  | [], stack => .ok stack
  | .number q :: ts, stack => evalRPNAux fns vars ts (q :: stack)
  | .var n :: ts, stack =>
    match lookupMap vars n with
    | some v => evalRPNAux fns vars ts (v :: stack)
    | none => .error (str "Undefined variable: " ++ n)
  | .op c :: ts, stack =>
    match stack with
    | b :: a :: rest =>
      match applyBinOp c a b with
      | .ok v => evalRPNAux fns vars ts (v :: rest)
      | .error e => .error e
    | _ => .error (str "Stack underflow")
  | .func f :: ts, stack =>
    match call_function fns f stack with
    | .ok (v, rest) => evalRPNAux fns vars ts (v :: rest)
    | .error e => .error e
  | _ :: _, _ => .error (str "Unexpected token in RPN")

/-- `ExpressionEvaluator::evaluate_rpn`: run the token loop, then return the
top of the operand stack (`Empty stack` error if there is none). -/
def evaluate_rpn (fns : FloatFns) (vars : List (Str × ℚ)) (rpn : List Token) :
    Except Str ℚ :=
  match evalRPNAux fns vars rpn [] with
  | .ok (v :: _) => .ok v
  | .ok [] => .error (str "Empty stack")
  | .error e => .error e

/-- `ExpressionEvaluator::evaluate`: tokenize, convert to RPN, evaluate. -/
def evaluate (fns : FloatFns) (vars : List (Str × ℚ)) (expr : Str) : Except Str ℚ :=
  match tokenize expr with
  | .ok toks => evaluate_rpn fns vars (to_rpn toks)
  | .error e => .error e

/-! ## Specification side for C1: standard operator-precedence semantics -/

/-- ASTs of variable-free arithmetic expressions. -/
inductive Expr where
  | num (q : ℚ)
  | bin (c : Char) (l r : Expr)
deriving DecidableEq

/-- Standard (AST-directed) semantics, with the same primitive operator
semantics `applyBinOp` as the evaluator. -/
def evalAST : Expr → Except Str ℚ
  | .num q => .ok q
  | .bin c l r =>
    match evalAST l, evalAST r with
    | .ok a, .ok b => applyBinOp c a b
    | .error e, _ => .error e
    | _, .error e => .error e

/-- Postfix (RPN) listing of an AST. -/
def rpnOf : Expr → List Token
  | .num q => [.number q]
  | .bin c l r => rpnOf l ++ rpnOf r ++ [.op c]

/- Recursive-descent parser for the spec's precedence grammar
(`+ -` = 1, `* / %` = 2, `^` = 3, all left-associative, parentheses
override).  `parseE p` parses a left-associated chain of operators of
precedence ≥ `p`; fuel only bounds recursion depth. -/
mutual

/-- Parse a primary expression: a number literal or a parenthesised
expression. -/
def parsePrimary : ℕ → List Token → Option (Expr × List Token)
  | 0, _ => none
  | _ + 1, .number q :: ts => some (.num q, ts)
  | fuel + 1, .lparen :: ts =>
    match parseE fuel 1 ts with
    | some (e, .rparen :: ts2) => some (e, ts2)
    | _ => none
  | _ + 1, _ => none

def parseE : ℕ → ℕ → List Token → Option (Expr × List Token)
  | 0, _, _ => none
  | fuel + 1, p, ts =>
    match parsePrimary fuel ts with
    | some (l, ts1) => parseLoop fuel p l ts1
    | none => none

def parseLoop : ℕ → ℕ → Expr → List Token → Option (Expr × List Token)
  | 0, _, _, _ => none
  | fuel + 1, p, l, .op c :: ts =>
    if p ≤ prec c then
      match parseE fuel (prec c + 1) ts with
      | some (r, ts2) => parseLoop fuel p (.bin c l r) ts2
      | none => none
    else some (l, .op c :: ts)
  | _ + 1, _, l, ts => some (l, ts)

end

/-! Helper predicates for the shunting-yard correctness argument. -/

/-- `rest` does not begin with an operator of precedence ≥ `p` (the state of
the remaining input when `parseLoop p` exits). -/
def exitCond (p : ℕ) (rest : List Token) : Prop :=
  ∀ c rest', rest = .op c :: rest' → prec c < p

/-- The stack does not have a function token on top. -/
def notFuncTop : List Token → Prop
  | .func _ :: _ => False
  | _ => True

/-- The stack top cannot be popped while processing operators of precedence
≥ `p` (left paren, lower-precedence operator, or empty). -/
def blocking (p : ℕ) : List Token → Prop
  | .op c :: _ => prec c < p
  | .func _ :: _ => False
  | _ => True

/-- Every element is an operator token of precedence ≥ `p`. -/
def allOpsGE (p : ℕ) (l : List Token) : Prop :=
  ∀ t ∈ l, ∃ c, t = .op c ∧ p ≤ prec c

/-- The stack top is not an operator of precedence ≥ `pv` (so `popWhileGE pv`
stops here). -/
def stopAt (pv : ℕ) (st : List Token) : Prop :=
  ∀ c rest, st = .op c :: rest → prec c < pv

/-- If the input begins with an operator, every stacked operator in `ops` has
at least its precedence (so the popping loop flushes all of `ops`). -/
def headBound (ts ops : List Token) : Prop :=
  ∀ c, ts.head? = some (.op c) → ∀ t ∈ ops, ∃ c', t = .op c' ∧ prec c ≤ prec c'

/-- Conclusion of the correctness lemma for `parsePrimary`. -/
def PrimOK (fuel : ℕ) : Prop :=
  ∀ ts e rest, parsePrimary fuel ts = some (e, rest) →
    ∃ consumed, ts = consumed ++ rest ∧
      ∀ st, notFuncTop st → shunt consumed st = (rpnOf e, st)

/-- Conclusion of the correctness lemma for `parseE`. -/
def EOK (fuel : ℕ) : Prop :=
  ∀ p ts e rest, parseE fuel p ts = some (e, rest) →
    ∃ consumed, ts = consumed ++ rest ∧ exitCond p rest ∧
      ∀ st, blocking p st → ∃ out ops,
        shunt consumed st = (out, ops ++ st) ∧ out ++ ops = rpnOf e ∧ allOpsGE p ops

/-- Conclusion of the correctness lemma for `parseLoop`. -/
def LoopOK (fuel : ℕ) : Prop :=
  ∀ p l ts e rest, parseLoop fuel p l ts = some (e, rest) →
    ∃ consumed, ts = consumed ++ rest ∧ exitCond p rest ∧
      ∀ st ops0, blocking p st → allOpsGE p ops0 → headBound ts ops0 →
        ∃ out ops', shunt consumed (ops0 ++ st) = (out, ops' ++ st) ∧
          (∀ pre, pre ++ ops0 = rpnOf l → pre ++ out ++ ops' = rpnOf e) ∧
          allOpsGE p ops'

/-! ## Turtle graphics state (`src/graphics/mod.rs`)

The plane is kept polymorphic over a linear ordered field with a floor
(`ℚ` for the computable claims, `ℝ` for the trigonometric one).  The
degree→displacement trigonometry (`heading.to_radians().sin()` and `.cos()`
in `TurtleState::forward`) is an `f32` transcendental computation with no
exact counterpart; it is a `Trig` parameter of the embedding. -/

/-- RGB triple, model of `egui::Color32`. -/
abbrev Color := ℕ × ℕ × ℕ

def colorWhite : Color := (255, 255, 255)

/-- `struct TurtleLine`. -/
structure TurtleLine (K : Type) where
  startX : K
  startY : K
  endX : K
  endY : K
  color : Color
  width : ℚ
deriving DecidableEq

/-- The two degree-argument trigonometric maps used by the turtle
(`d ↦ sin (d·π/180)` and `d ↦ cos (d·π/180)` over `ℝ`). -/
structure Trig (K : Type) where
  sinDeg : K → K
  cosDeg : K → K

/-- `struct TurtleState`. -/
structure TurtleState (K : Type) where
  x : K
  y : K
  heading : K
  pen_down : Bool
  pen_color : Color
  pen_width : ℚ
  canvas_width : ℚ
  canvas_height : ℚ
  lines : List (TurtleLine K)
  visible : Bool
  bg_color : Color
deriving DecidableEq

variable {K : Type} [LinearOrderedField K] [FloorRing K]

/-- `TurtleState::new`. -/
def TurtleState.new : TurtleState K :=
  { x := 0, y := 0, heading := 0, pen_down := true, pen_color := colorWhite,
    pen_width := 2, canvas_width := 800, canvas_height := 600, lines := [],
    visible := true, bg_color := (10, 10, 20) }

/-- `f32::rem_euclid`: `a - b·⌊a/b⌋`, in `[0, b)` for `b > 0`. -/
def remEuclid (a b : K) : K := a - b * (⌊a / b⌋ : ℤ)

/-- `TurtleState::forward`: displace along the heading; if the pen is down,
append the segment from the pre-move to the post-move position. -/
def TurtleState.forward (trig : Trig K) (distance : K) (t : TurtleState K) :
    TurtleState K :=
  let newX := t.x + distance * trig.sinDeg t.heading
  let newY := t.y - distance * trig.cosDeg t.heading
  { t with
    x := newX, y := newY,
    lines :=
      if t.pen_down then
        t.lines ++ [⟨t.x, t.y, newX, newY, t.pen_color, t.pen_width⟩]
      else t.lines }

/-- `TurtleState::back`. -/
def TurtleState.back (trig : Trig K) (distance : K) (t : TurtleState K) :
    TurtleState K :=
  t.forward trig (-distance)

/-- `TurtleState::left`: turn counterclockwise, normalising into `[0,360)`. -/
def TurtleState.left (angle : K) (t : TurtleState K) : TurtleState K :=
  { t with heading := remEuclid (t.heading - angle) 360 }

/-- `TurtleState::right`: turn clockwise, normalising into `[0,360)`. -/
def TurtleState.right (angle : K) (t : TurtleState K) : TurtleState K :=
  { t with heading := remEuclid (t.heading + angle) 360 }

/-- `TurtleState::goto`: teleport, drawing a segment if the pen is down. -/
def TurtleState.goto (x y : K) (t : TurtleState K) : TurtleState K :=
  { t with
    x := x, y := y,
    lines :=
      if t.pen_down then t.lines ++ [⟨t.x, t.y, x, y, t.pen_color, t.pen_width⟩]
      else t.lines }

/-- `TurtleState::home`: `goto(0,0)` then reset the heading to 0. -/
def TurtleState.home (t : TurtleState K) : TurtleState K :=
  { t.goto 0 0 with heading := 0 }

/-- `TurtleState::clear`. -/
def TurtleState.clear (t : TurtleState K) : TurtleState K :=
  { t with lines := [] }

/-! ## Interpreter state (`src/interpreter/mod.rs`)

The two callback fields (`input_callback`, `inkey_callback`) are function
trait objects that the claims' entry points never install; the embedding
models them as permanently absent (`execute_input` therefore always takes
the pending-request path, exactly as in every claim's scenario). -/

/-- `enum Language` (`languages/mod.rs`). -/
inductive Language where
  | pilot
  | basic
  | logo
  | python
  | javascript
  | perl
deriving DecidableEq

/-- `enum ExecutionResult` (`End` is `stop` here: `end` is reserved). -/
inductive ExecutionResult where
  | cont
  | stop
  | jump (line : ℕ)
  | waitForInput
deriving DecidableEq

/-- `enum ScreenMode`. -/
inductive ScreenMode where
  | text (cols rows : ℕ)
  | graphics (width height : ℕ)
deriving DecidableEq

/-- `struct ForContext`. -/
structure ForContext where
  var_name : Str
  end_value : ℚ
  step : ℚ
  for_line : ℕ
deriving DecidableEq

/-- `struct InputRequest`. -/
structure InputRequest where
  prompt : Str
  var_name : Str
  prefer_numeric : Bool
deriving DecidableEq

abbrev LogoProcedure := List Str

/-- `struct Interpreter` (data fields; see the section comment about the
callback fields).  Stacks are lists with the head as top.  The Rust field
`variables` is `vars` here (`variables` is reserved in Lean 4). -/
structure Interp where
  vars : List (Str × ℚ)
  string_variables : List (Str × Str)
  output : List Str
  program_lines : List (Option ℕ × Str)
  current_line : ℕ
  labels : List (Str × ℕ)
  gosub_stack : List ℕ
  for_stack : List ForContext
  match_flag : Bool
  last_match_set : Bool
  stored_condition : Option Bool
  last_input : Str
  logo_procedures : List (Str × LogoProcedure)
  pending_input : Option InputRequest
  pending_resume_line : Option ℕ
  screen_mode : ScreenMode
  text_lines : List Str
deriving DecidableEq

/-- `Interpreter::new`. -/
def Interp.new : Interp :=
  { vars := [], string_variables := [], output := [], program_lines := [],
    current_line := 0, labels := [], gosub_stack := [], for_stack := [],
    match_flag := false, last_match_set := false, stored_condition := none,
    last_input := [], logo_procedures := [], pending_input := none,
    pending_resume_line := none, screen_mode := .graphics 800 600,
    text_lines := [] }

/-- `Interpreter::log_output`. -/
def Interp.log_output (i : Interp) (s : Str) : Interp :=
  let maxRows :=
    match i.screen_mode with
    | .text _ rows => rows
    | _ => 0
  if 0 < maxRows then
    let tl := i.text_lines ++ [s]
    { i with output := i.output ++ [s], text_lines := tl.drop (tl.length - maxRows) }
  else { i with output := i.output ++ [s] }

/-- `Interpreter::evaluate_expression`. -/
def Interp.evaluate_expression (fns : FloatFns) (i : Interp) (expr : Str) :
    Except Str ℚ :=
  evaluate fns i.vars expr

/-- Character classes of the interpolation pattern `\*([A-Z_][A-Z0-9_]*)\*`. -/
def isVarHead (c : Char) : Bool := ('A' ≤ c && c ≤ 'Z') || c = '_'

def isVarTail (c : Char) : Bool := isVarHead c || ('0' ≤ c && c ≤ '9')

/-- The capture names found by `VAR_INTERPOLATION_PATTERN.captures_iter`,
left to right, non-overlapping.  Fuel makes the scan structural; it starts
above the text length, so exhaustion is unreachable. -/
def findVarNames : ℕ → Str → List Str
  | 0, _ => []
  | _ + 1, [] => []
  | fuel + 1, '*' :: rest =>
    match rest with
    | h :: t =>
      if isVarHead h then
        let name := h :: t.takeWhile isVarTail
        match t.dropWhile isVarTail with
        | '*' :: rest' => name :: findVarNames fuel rest'
        | _ => findVarNames fuel rest
      else findVarNames fuel rest
    | [] => []
  | fuel + 1, _ :: rest => findVarNames fuel rest

/-- Model of `String::replace` (all non-overlapping occurrences, left to
right); fuel starts at the text length, which suffices since the pattern is
never empty. -/
def replaceAll : ℕ → Str → Str → Str → Str
  | 0, text, _, _ => text
  | _ + 1, [], _, _ => []
  | fuel + 1, c :: cs, pat, rep =>
    if pat.isPrefixOf (c :: cs) then
      rep ++ replaceAll fuel ((c :: cs).drop pat.length) pat rep
    else c :: replaceAll fuel cs pat rep

/-- `Interpreter::interpolate_text`: replace `*VAR*` tokens from the numeric
(first) or string bindings, with the asterisk-free fast path. -/
def Interp.interpolate_text (i : Interp) (text : Str) : Str :=
  if !text.any (· = '*') then text
  else
    (findVarNames (text.length + 1) text).foldl
      (fun acc name =>
        match lookupMap i.vars name with
        | some v => replaceAll acc.length acc ('*' :: name ++ ['*']) (fmtNum v)
        | none =>
          match lookupMap i.string_variables name with
          | some s => replaceAll acc.length acc ('*' :: name ++ ['*']) s
          | none => acc)
      text

/-- Split a string at every `\n` (model of `str::lines`, step 1). -/
def splitNl : Str → List Str
  | [] => [[]]
  | '\n' :: cs => [] :: splitNl cs
  | c :: cs =>
    match splitNl cs with
    | h :: t => (c :: h) :: t
    | [] => [[c]]

/-- Model of `str::lines` (drop a final empty segment, strip trailing `\r`). -/
def linesOf (s : Str) : List Str :=
  let parts := splitNl s
  let parts := if parts.getLast? = some [] then parts.dropLast else parts
  parts.map fun l => if l.getLast? = some '\r' then l.dropLast else l

/-- `Interpreter::parse_line`: split off an optional leading line number. -/
def parse_line (line : Str) : Option ℕ × Str :=
  let l := trimL line
  let (first, restOpt) := splitn2Ws l
  match parseUsize first, restOpt with
  | some n, some rest => (some n, trimL rest)
  | _, _ => (none, l)

/-- `Interpreter::reset`. -/
def Interp.reset (i : Interp) : Interp :=
  { i with
    vars := [], string_variables := [], output := [], text_lines := [],
    program_lines := [], current_line := 0, labels := [], gosub_stack := [],
    for_stack := [], match_flag := false, last_match_set := false,
    stored_condition := none, logo_procedures := [], pending_input := none,
    pending_resume_line := none }

/-- The line loop of `Interpreter::load_program`: parse each line, record
`L:` labels by array index, append the (line number, command) pair. -/
def loadLines : Interp → ℕ → List Str → Interp
  | i, _, [] => i
  | i, idx, line :: rest =>
    let (num, cmd) := parse_line line
    let i :=
      if cmd.take 2 = str "L:" then
        { i with labels := insertMap i.labels (trimL (cmd.drop 2)) idx }
      else i
    loadLines { i with program_lines := i.program_lines ++ [(num, cmd)] } (idx + 1) rest

/-- `Interpreter::load_program` (its Rust `Result` is always `Ok`). -/
def Interp.load_program (i : Interp) (text : Str) : Interp :=
  loadLines i.reset 0 (linesOf text)

def logoKeywords : List Str :=
  [str "FORWARD", str "FD", str "BACK", str "BK", str "LEFT", str "LT",
   str "RIGHT", str "RT", str "PENUP", str "PU", str "PENDOWN", str "PD",
   str "CLEARSCREEN", str "CS", str "HOME", str "SETXY", str "REPEAT",
   str "TO", str "END", str "SETHEADING", str "SETH", str "SETCOLOR",
   str "SETPENCOLOR", str "PENWIDTH", str "SETPENSIZE", str "SETBGCOLOR",
   str "HIDETURTLE", str "HT", str "SHOWTURTLE", str "ST"]

def basicKeywords : List Str :=
  [str "LET", str "PRINT", str "INPUT", str "GOTO", str "IF", str "THEN",
   str "FOR", str "NEXT", str "GOSUB", str "RETURN", str "REM", str "DIM",
   str "DATA", str "READ", str "LINE", str "CIRCLE", str "SCREEN"]

/-- `Interpreter::determine_command_type`: the per-line dialect classifier. -/
def Interp.determine_command_type (i : Interp) (command : Str) : Language :=
  let cmd := trimL command
  if 1 < cmd.length ∧ cmd.get? 1 = some ':' then .pilot
  else
    let first_upper := upperL (firstWordL cmd)
    if logoKeywords.contains first_upper
        || containsMap i.logo_procedures first_upper then .logo
    else if basicKeywords.contains (upperL (firstWordL cmd)) then .basic
    else .pilot

/-- `find_line_index` (`languages/basic/mod.rs`): first array index whose
BASIC line number matches. -/
def find_line_index (i : Interp) (num : ℕ) : Option ℕ :=
  i.program_lines.findIdx? fun p => p.1 == some num

/-- `Interpreter::jump_to_label`. -/
def Interp.jump_to_label (i : Interp) (label : Str) : Option ℕ :=
  lookupMap i.labels label

/-- `Interpreter::start_input_request`: created only if none is pending. -/
def Interp.start_input_request (i : Interp) (prompt var_name : Str)
    (prefer_numeric : Bool) : Interp :=
  if i.pending_input.isNone then
    { i with
      pending_input := some ⟨prompt, var_name, prefer_numeric⟩,
      pending_resume_line := some i.current_line }
  else i

/-- `Interpreter::provide_input`: consume the pending request, bind the
value, and advance the cursor past the requesting line. -/
def Interp.provide_input (i : Interp) (value : Str) : Interp :=
  match i.pending_input with
  | none => i
  | some req =>
    let i := { i with pending_input := none, last_input := value }
    let i :=
      if req.prefer_numeric then
        match parseF64 (trimL value) with
        | some num => { i with vars := insertMap i.vars req.var_name num }
        | none =>
          { i with string_variables := insertMap i.string_variables req.var_name value }
      else
        if (trimL value).isEmpty then
          { i with string_variables := insertMap i.string_variables req.var_name [] }
        else
          match parseF64 (trimL value) with
          | some num => { i with vars := insertMap i.vars req.var_name num }
          | none =>
            { i with string_variables := insertMap i.string_variables req.var_name value }
    match i.pending_resume_line with
    | some line => { i with pending_resume_line := none, current_line := line + 1 }
    | none => i

/-! ## BASIC executor (`src/languages/basic/mod.rs`)

Executors return the threaded state plus `Except Str ExecutionResult`: the
error branch models a Rust `Err`, with any state mutations made before the
error point already applied (as `&mut` mutation would leave them). -/

/-- Bundle of the two function-model parameters threaded through executors. -/
structure Ctx (K : Type) where
  trig : Trig K
  fns : FloatFns

/-- Index of the first occurrence of a character (model of `str::find(char)`;
ASCII, so byte index = character index). -/
def findCharIdx (s : Str) (c : Char) : Option ℕ := s.findIdx? (· == c)

/-- Index of the first occurrence of a substring (model of `str::find(&str)`). -/
def findSubstr : Str → Str → Option ℕ
  | s, pat =>
    if pat.isPrefixOf s then some 0
    else
      match s with
      | [] => none
      | _ :: cs => (findSubstr cs pat).map (· + 1)

/-- Index of the last occurrence of a character (model of `str::rfind(char)`). -/
def rfindCharIdx (s : Str) (c : Char) : Option ℕ :=
  (s.reverse.findIdx? (· == c)).map fun k => s.length - 1 - k

/-- The comma-splitting loop of `execute_print` (commas inside quotes do not
split; every comma-delimited part is trimmed; a trailing all-blank part is
dropped).  The accumulator holds the current part reversed. -/
def printParts : Str → Str → Bool → List Str
  | [], cur, _ =>
    if (trimL cur.reverse).isEmpty then [] else [trimL cur.reverse]
  | '"' :: cs, cur, inq => printParts cs ('"' :: cur) (!inq)
  | ',' :: cs, cur, false => trimL cur.reverse :: printParts cs [] false
  | c :: cs, cur, inq => printParts cs (c :: cur) inq

/-- One `PRINT` item: quoted literal, numeric expression, string then numeric
variable lookup, and `*VAR*` interpolation as the last resort. -/
def printItem (fns : FloatFns) (i : Interp) (item : Str) : Str :=
  let it := trimL item
  if it.head? = some '"' ∧ it.getLast? = some '"' ∧ 2 ≤ it.length then
    (it.drop 1).dropLast
  else
    match evaluate fns i.vars it with
    | .ok v => fmtNum v
    | .error _ =>
      match lookupMap i.string_variables it with
      | some s => s
      | none =>
        match lookupMap i.vars it with
        | some n => fmtNum n
        | none => i.interpolate_text it

/-- `execute_print`. -/
def execute_print (fns : FloatFns) (i : Interp) (args : Str) :
    Interp × Except Str ExecutionResult :=
  let parts := printParts args [] false
  if parts.isEmpty then (i.log_output [], .ok .cont)
  else
    (i.log_output (List.intercalate (str " ") (parts.map (printItem fns i))),
     .ok .cont)

/-- `execute_let`: numeric when the right-hand side evaluates, else a string
(or raw-text) binding. -/
def execute_let (fns : FloatFns) (i : Interp) (assignment : Str) :
    Interp × Except Str ExecutionResult :=
  match findCharIdx assignment '=' with
  | none => (i, .ok .cont)
  | some pos =>
    let var_name := trimL (assignment.take pos)
    let expr := trimL (assignment.drop (pos + 1))
    match evaluate fns i.vars expr with
    | .ok value => ({ i with vars := insertMap i.vars var_name value }, .ok .cont)
    | .error _ =>
      let val :=
        if expr.head? = some '"' ∧ expr.getLast? = some '"' ∧ 2 ≤ expr.length then
          (expr.drop 1).dropLast
        else expr
      ({ i with string_variables := insertMap i.string_variables var_name val },
       .ok .cont)

/-- `execute_input`: with no synchronous input callback installed (see the
`Interp` section comment), record a pending request and suspend. -/
def execute_input (i : Interp) (var : Str) : Interp × Except Str ExecutionResult :=
  let var_name := trimL var
  let prompt := var_name ++ str "? "
  (i.start_input_request prompt var_name true, .ok .waitForInput)

/-- `execute_goto`: resolve the BASIC line number to an array index; a
missing target logs a message and continues. -/
def execute_goto (i : Interp) (line_num : Str) : Interp × Except Str ExecutionResult :=
  match parseUsize (trimL line_num) with
  | some num =>
    match find_line_index i num with
    | some idx => (i, .ok (.jump idx))
    | none =>
      (i.log_output (str "GOTO " ++ natDigits num ++ str " failed: line not found"),
       .ok .cont)
  | none => (i, .ok .cont)

/-- `execute_for`: `FOR var = start TO end [STEP step]`; pushes a
`ForContext` and initialises the loop variable (evaluation order as in the
source: step, then start, then end). -/
def execute_for (fns : FloatFns) (i : Interp) (params : Str) :
    Interp × Except Str ExecutionResult :=
  let params_upper := upperL params
  match findCharIdx params '=' with
  | none => (i, .error (str "FOR missing '='"))
  | some eq_pos =>
    match findSubstr params_upper (str " TO ") with
    | none => (i, .error (str "FOR missing TO"))
    | some to_pos =>
      let var_name := trimL (params.take eq_pos)
      let start_expr := trimL ((params.drop (eq_pos + 1)).take (to_pos - (eq_pos + 1)))
      let stepRes : Except Str (Str × ℚ) :=
        match findSubstr params_upper (str " STEP ") with
        | some step_pos =>
          match evaluate fns i.vars (trimL (params.drop (step_pos + 6))) with
          | .ok sv =>
            .ok (trimL ((params.drop (to_pos + 4)).take (step_pos - (to_pos + 4))), sv)
          | .error e => .error e
        | none => .ok (trimL (params.drop (to_pos + 4)), (1 : ℚ))
      match stepRes with
      | .error e => (i, .error e)
      | .ok (end_expr, step_val) =>
        match evaluate fns i.vars start_expr with
        | .error e => (i, .error e)
        | .ok start =>
          match evaluate fns i.vars end_expr with
          | .error e => (i, .error e)
          | .ok endv =>
            ({ i with
                vars := insertMap i.vars var_name start,
                for_stack := ⟨var_name, endv, step_val, i.current_line⟩ :: i.for_stack },
             .ok .cont)

/-- `execute_next`: peek the top `ForContext`, check the name, advance by
`step`; loop back to `for_line + 1` while the bound allows, else pop. -/
def execute_next (i : Interp) (var : Str) : Interp × Except Str ExecutionResult :=
  let var_name := trimL var
  match i.for_stack with
  | ctx :: rest =>
    if var_name ≠ [] ∧ ctx.var_name ≠ var_name then
      (i, .error (str "NEXT " ++ var_name ++ str " does not match FOR " ++ ctx.var_name))
    else
      let current := (lookupMap i.vars ctx.var_name).getD 0
      let new_val := qAdd current ctx.step
      let should_continue :=
        if 0 ≤ ctx.step then new_val ≤ ctx.end_value else ctx.end_value ≤ new_val
      if should_continue then
        ({ i with vars := insertMap i.vars ctx.var_name new_val },
         .ok (.jump (ctx.for_line + 1)))
      else
        ({ i with for_stack := rest }, .ok .cont)
  | [] => (i, .error (str "NEXT without FOR"))

/-- `execute_gosub`: the return line is pushed before the target lookup, so
it stays pushed even when the target is missing. -/
def execute_gosub (i : Interp) (line_num : Str) : Interp × Except Str ExecutionResult :=
  match parseUsize (trimL line_num) with
  | some num =>
    let i := { i with gosub_stack := i.current_line :: i.gosub_stack }
    match find_line_index i num with
    | some idx => (i, .ok (.jump idx))
    | none =>
      (i.log_output (str "GOSUB " ++ natDigits num ++ str " failed: line not found"),
       .ok .cont)
  | none => (i, .ok .cont)

/-- `execute_return`: pop and jump past the saved line; an empty stack logs
`RETURN without GOSUB` and continues. -/
def execute_return (i : Interp) : Interp × Except Str ExecutionResult :=
  match i.gosub_stack with
  | line :: rest => ({ i with gosub_stack := rest }, .ok (.jump (line + 1)))
  | [] => (i.log_output (str "RETURN without GOSUB"), .ok .cont)

/-- Full split at a separator character (keeps empty segments). -/
def splitOnChar (c : Char) : Str → List Str
  | [] => [[]]
  | d :: cs =>
    if d = c then [] :: splitOnChar c cs
    else
      match splitOnChar c cs with
      | h :: t => (d :: h) :: t
      | [] => [[d]]

/-- `f64 as u8` after `clamp(0.0, 255.0)`. -/
def clampByte (v : ℚ) : ℕ := (⌊max 0 (min v 255)⌋).toNat

/-- `execute_line` (the BASIC `LINE x1,y1,x2,y2` graphics command is `basicLine`
here to avoid clashing with the interpreter loop's line concept): pen-up
teleport to the start, pen-down teleport to the end, restore the pen. -/
def basicLine (fns : FloatFns) (i : Interp) (args : Str) (t : TurtleState K) :
    Interp × TurtleState K × Except Str ExecutionResult :=
  let parts := (splitOnChar ',' args).map trimL
  if 4 ≤ parts.length then
    match evaluate fns i.vars (parts.getD 0 []) with
    | .error e => (i, t, .error e)
    | .ok x1 =>
      match evaluate fns i.vars (parts.getD 1 []) with
      | .error e => (i, t, .error e)
      | .ok y1 =>
        match evaluate fns i.vars (parts.getD 2 []) with
        | .error e => (i, t, .error e)
        | .ok x2 =>
          match evaluate fns i.vars (parts.getD 3 []) with
          | .error e => (i, t, .error e)
          | .ok y2 =>
            let old_pen := t.pen_down
            let t := { t with pen_down := false }
            let t := t.goto ((x1 : ℚ) : K) ((y1 : ℚ) : K)
            let t := { t with pen_down := true }
            let t := t.goto ((x2 : ℚ) : K) ((y2 : ℚ) : K)
            (i, { t with pen_down := old_pen }, .ok .cont)
  else (i, t, .ok .cont)

/-- The 36-step polygon loop of `execute_circle` (indices 1..=36, ascending). -/
def circleSteps (trig : Trig K) (cx cy r : K) (t : TurtleState K) : TurtleState K :=
  (List.range 36).foldl
    (fun t idx =>
      t.goto (cx + r * trig.sinDeg (((idx + 1 : ℕ) : K) * ((360 : K) / 36)))
        (cy + r * trig.cosDeg (((idx + 1 : ℕ) : K) * ((360 : K) / 36))))
    t

/-- `execute_circle`: `CIRCLE cx,cy,r` as a 36-segment polygon. -/
def basicCircle (ctx : Ctx K) (i : Interp) (args : Str) (t : TurtleState K) :
    Interp × TurtleState K × Except Str ExecutionResult :=
  let parts := (splitOnChar ',' args).map trimL
  if 3 ≤ parts.length then
    match evaluate ctx.fns i.vars (parts.getD 0 []) with
    | .error e => (i, t, .error e)
    | .ok cxq =>
      match evaluate ctx.fns i.vars (parts.getD 1 []) with
      | .error e => (i, t, .error e)
      | .ok cyq =>
        match evaluate ctx.fns i.vars (parts.getD 2 []) with
        | .error e => (i, t, .error e)
        | .ok rq =>
          let cx : K := ((cxq : ℚ) : K)
          let cy : K := ((cyq : ℚ) : K)
          let r : K := ((rq : ℚ) : K)
          let old_pen := t.pen_down
          let t := { t with pen_down := false }
          let t := t.goto cx (cy + r)
          let t := { t with pen_down := true }
          let t := circleSteps ctx.trig cx cy r t
          (i, { t with pen_down := old_pen }, .ok .cont)
  else (i, t, .ok .cont)

/-- `basic::execute`: keyword dispatch.  The fuel only bounds the nesting of
inline `IF … THEN <command>` recursion (each nested command is a strict suffix
of its parent, so fuel `command.length + 1` can never run out). -/
def basicExecute (ctx : Ctx K) :
    ℕ → Interp → Str → TurtleState K → Interp × TurtleState K × Except Str ExecutionResult
  | 0, i, _, t => (i, t, .error (str "IF nesting exhausted fuel"))
  | fuel + 1, i, command, t =>
    let trimmed := trimL command
    if trimmed.isEmpty then (i, t, .ok .cont)
    else
      let (keyword, argsOpt) := splitn2Ws trimmed
      let args := argsOpt.getD []
      let kw := upperL keyword
      if kw = str "PRINT" then
        let (i', r) := execute_print ctx.fns i args; (i', t, r)
      else if kw = str "LET" then
        let (i', r) := execute_let ctx.fns i args; (i', t, r)
      else if kw = str "INPUT" then
        let (i', r) := execute_input i args; (i', t, r)
      else if kw = str "GOTO" then
        let (i', r) := execute_goto i args; (i', t, r)
      else if kw = str "IF" then
        -- `execute_if`: IF <expr> THEN <line-number | inline command>
        let cond_upper := upperL args
        match findSubstr cond_upper (str "THEN") with
        | some pos =>
          let cond_str := trimL (args.take pos)
          let then_str := trimL (args.drop (pos + 4))
          let condv : ℚ :=
            match evaluate ctx.fns i.vars cond_str with
            | .ok v => v
            | .error _ => 0
          if condv ≠ 0 then
            if (match then_str with | c :: _ => c.isDigit | [] => false) then
              let (i', r) := execute_goto i then_str; (i', t, r)
            else
              basicExecute ctx fuel i then_str t
          else (i, t, .ok .cont)
        | none => (i.log_output (str "IF missing THEN"), t, .ok .cont)
      else if kw = str "FOR" then
        let (i', r) := execute_for ctx.fns i args; (i', t, r)
      else if kw = str "NEXT" then
        let (i', r) := execute_next i args; (i', t, r)
      else if kw = str "GOSUB" then
        let (i', r) := execute_gosub i args; (i', t, r)
      else if kw = str "RETURN" then
        let (i', r) := execute_return i; (i', t, r)
      else if kw = str "REM" then (i, t, .ok .cont)
      else if kw = str "END" then (i, t, .ok .stop)
      else if kw = str "LINE" then basicLine ctx.fns i args t
      else if kw = str "CIRCLE" then basicCircle ctx i args t
      else
        (i.log_output (str "Unknown BASIC command: " ++ keyword), t, .ok .cont)

/-! ## Logo executor (`src/languages/logo/mod.rs`) -/

def hexDigitVal (c : Char) : Option ℕ :=
  if '0' ≤ c ∧ c ≤ '9' then some (c.toNat - '0'.toNat)
  else if 'a' ≤ c ∧ c ≤ 'f' then some (c.toNat - 'a'.toNat + 10)
  else if 'A' ≤ c ∧ c ≤ 'F' then some (c.toNat - 'A'.toNat + 10)
  else none

/-- Two hex digits to a byte (`u8::from_str_radix(_, 16)` on a pair). -/
def hexByte (hi lo : Char) : Option ℕ :=
  match hexDigitVal hi, hexDigitVal lo with
  | some h, some l => some (16 * h + l)
  | _, _ => none

/-- `parse_named_color`. -/
def parse_named_color (name : Str) : Option Color :=
  if name = str "BLACK" then some (0, 0, 0)
  else if name = str "WHITE" then some (255, 255, 255)
  else if name = str "RED" then some (255, 0, 0)
  else if name = str "GREEN" then some (0, 255, 0)
  else if name = str "BLUE" then some (0, 0, 255)
  else if name = str "YELLOW" then some (255, 255, 0)
  else if name = str "CYAN" then some (0, 255, 255)
  else if name = str "MAGENTA" then some (255, 0, 255)
  else if name = str "ORANGE" then some (255, 165, 0)
  else if name = str "PURPLE" then some (128, 0, 128)
  else if name = str "PINK" then some (255, 192, 203)
  else if name = str "BROWN" then some (165, 42, 42)
  else if name = str "GRAY" || name = str "GREY" then some (160, 160, 160)
  else none

/-- `parse_hex_color` (`#RRGGBB` or `#RGB`). -/
def parse_hex_color (hex : Str) : Option Color :=
  let h := hex.dropWhile (· = '#')
  match h with
  | [r1, r2, g1, g2, b1, b2] =>
    match hexByte r1 r2, hexByte g1 g2, hexByte b1 b2 with
    | some r, some g, some b => some (r, g, b)
    | _, _, _ => none
  | [r, g, b] =>
    match hexByte r r, hexByte g g, hexByte b b with
    | some rv, some gv, some bv => some (rv, gv, bv)
    | _, _, _ => none
  | _ => none

/-- Shared body of `execute_setcolor` / `execute_setbgcolor` (they differ
only in the field written): returns the selected colour, if any. -/
def selectColor (fns : FloatFns) (i : Interp) (args : Str) :
    Except Str (Option Color) :=
  let trimmed := trimL args
  let parts := splitWs trimmed
  if parts.length = 1 then
    let arg := upperL (parts.getD 0 [])
    match parse_named_color arg with
    | some c => .ok (some c)
    | none =>
      if trimmed.head? = some '#' then .ok (parse_hex_color trimmed)
      else .ok none
  else if 3 ≤ parts.length then
    match evaluate fns i.vars (parts.getD 0 []) with
    | .error e => .error e
    | .ok r =>
      match evaluate fns i.vars (parts.getD 1 []) with
      | .error e => .error e
      | .ok g =>
        match evaluate fns i.vars (parts.getD 2 []) with
        | .error e => .error e
        | .ok b => .ok (some (clampByte r, clampByte g, clampByte b))
  else .ok none

/-- `REPEAT`'s word pairing: `split_whitespace` chunks of two (a keyword and
one argument, or a single trailing keyword). -/
def chunks2 : List Str → List (List Str)
  | [] => []
  | [a] => [[a]]
  | a :: b :: rest => [a, b] :: chunks2 rest

/-- `f64 as usize` for the `REPEAT` count (saturating at 0, truncating). -/
def ratToUsize (q : ℚ) : ℕ := if q.num < 0 then 0 else q.num.toNat / q.den

/-- The forward scan of `execute_to`: collect lines until a trimmed `END`,
returning (index of the `END` line, collected body). -/
def scanBody : List (Option ℕ × Str) → ℕ → List Str → Option (ℕ × List Str)
  | [], _, _ => none
  | (_, line) :: rest, idx, body =>
    if upperL (trimL line) = str "END" then some (idx, body)
    else scanBody rest (idx + 1) (body ++ [line])

/-- Replay a list of command strings through an executor, discarding `Ok`
directives and aborting on the first `Err` (the `execute(...)?` loops of
`execute_repeat` and `execute_procedure`). -/
def runLines (exec : Interp → Str → TurtleState K → Interp × TurtleState K × Except Str ExecutionResult) :
    List Str → Interp → TurtleState K → Interp × TurtleState K × Except Str Unit
  | [], i, t => (i, t, .ok ())
  | cmd :: rest, i, t =>
    match exec i cmd t with
    | (i', t', .error e) => (i', t', .error e)
    | (i', t', .ok _) => runLines exec rest i' t'

/-- The iteration loop of `execute_repeat`. -/
def runRepeat (exec : Interp → Str → TurtleState K → Interp × TurtleState K × Except Str ExecutionResult)
    (cmds : List Str) :
    ℕ → Interp → TurtleState K → Interp × TurtleState K × Except Str Unit
  | 0, i, t => (i, t, .ok ())
  | n + 1, i, t =>
    match runLines exec cmds i t with
    | (i', t', .ok _) => runRepeat exec cmds n i' t'
    | (i', t', .error e) => (i', t', .error e)

/-- The command string rebuilt from one `chunks(2)` chunk
(`format!("{} {}", cmd[0], cmd[1])`, or the bare keyword). -/
def chunkCmd : List Str → Str
  | [a, b] => a ++ ' ' :: b
  | [a] => a
  | _ => []

/-- `logo::execute`.  The whole line is uppercased before dispatch.  Fuel
bounds only the replay depth of `REPEAT` bodies and stored procedures (in
Rust this recursion is unbounded — a self-invoking procedure overflows the
stack); the interpreter entry point passes fuel 1000, far above any claim's
nesting depth. -/
def logoExecute (ctx : Ctx K) :
    ℕ → Interp → Str → TurtleState K → Interp × TurtleState K × Except Str ExecutionResult
  | 0, i, _, t => (i, t, .error (str "Logo replay exhausted fuel"))
  | fuel + 1, i, command, t =>
    let cmd := upperL (trimL command)
    let (head, argOpt) := splitn2Ws cmd
    if head = str "FORWARD" ∨ head = str "FD" then
      match evaluate ctx.fns i.vars (trimL (argOpt.getD (str "0"))) with
      | .error e => (i, t, .error e)
      | .ok d => (i, t.forward ctx.trig ((d : ℚ) : K), .ok .cont)
    else if head = str "BACK" ∨ head = str "BK" ∨ head = str "BACKWARD" then
      match evaluate ctx.fns i.vars (trimL (argOpt.getD (str "0"))) with
      | .error e => (i, t, .error e)
      | .ok d => (i, t.back ctx.trig ((d : ℚ) : K), .ok .cont)
    else if head = str "LEFT" ∨ head = str "LT" then
      match evaluate ctx.fns i.vars (trimL (argOpt.getD (str "0"))) with
      | .error e => (i, t, .error e)
      | .ok a => (i, t.left ((a : ℚ) : K), .ok .cont)
    else if head = str "RIGHT" ∨ head = str "RT" then
      match evaluate ctx.fns i.vars (trimL (argOpt.getD (str "0"))) with
      | .error e => (i, t, .error e)
      | .ok a => (i, t.right ((a : ℚ) : K), .ok .cont)
    else if head = str "PENUP" ∨ head = str "PU" then
      (i, { t with pen_down := false }, .ok .cont)
    else if head = str "PENDOWN" ∨ head = str "PD" then
      (i, { t with pen_down := true }, .ok .cont)
    else if head = str "CLEARSCREEN" ∨ head = str "CS" then
      (i, t.clear.home, .ok .cont)
    else if head = str "HOME" then
      (i, t.home, .ok .cont)
    else if head = str "SETXY" then
      let parts := splitWs (argOpt.getD [])
      if 2 ≤ parts.length then
        match evaluate ctx.fns i.vars (parts.getD 0 []) with
        | .error e => (i, t, .error e)
        | .ok x =>
          match evaluate ctx.fns i.vars (parts.getD 1 []) with
          | .error e => (i, t, .error e)
          | .ok y => (i, t.goto ((x : ℚ) : K) ((y : ℚ) : K), .ok .cont)
      else (i, t, .ok .cont)
    else if head = str "SETHEADING" ∨ head = str "SETH" then
      match evaluate ctx.fns i.vars (trimL (argOpt.getD (str "0"))) with
      | .error e => (i, t, .error e)
      | .ok a => (i, { t with heading := ((a : ℚ) : K) }, .ok .cont)
    else if head = str "SETCOLOR" ∨ head = str "SETPENCOLOR" then
      match selectColor ctx.fns i (argOpt.getD []) with
      | .error e => (i, t, .error e)
      | .ok (some c) => (i, { t with pen_color := c }, .ok .cont)
      | .ok none => (i, t, .ok .cont)
    else if head = str "PENWIDTH" ∨ head = str "SETPENSIZE" then
      match evaluate ctx.fns i.vars (trimL (argOpt.getD [])) with
      | .error e => (i, t, .error e)
      | .ok w => (i, { t with pen_width := max w (mkRat 1 10) }, .ok .cont)
    else if head = str "SETBGCOLOR" then
      match selectColor ctx.fns i (argOpt.getD []) with
      | .error e => (i, t, .error e)
      | .ok (some c) => (i, { t with bg_color := c }, .ok .cont)
      | .ok none => (i, t, .ok .cont)
    else if head = str "HIDETURTLE" ∨ head = str "HT" then
      (i, { t with visible := false }, .ok .cont)
    else if head = str "SHOWTURTLE" ∨ head = str "ST" then
      (i, { t with visible := true }, .ok .cont)
    else if head = str "REPEAT" then
      let params := trimL (argOpt.getD [])
      match findCharIdx params '[' with
      | none => (i, t, .error (str "REPEAT missing '['"))
      | some bracket_start =>
        match rfindCharIdx params ']' with
        | none => (i, t, .error (str "REPEAT missing ']'"))
        | some bracket_end =>
          let count_str := trimL (params.take bracket_start)
          let commands :=
            trimL ((params.drop (bracket_start + 1)).take (bracket_end - (bracket_start + 1)))
          match evaluate ctx.fns i.vars count_str with
          | .error e => (i, t, .error e)
          | .ok cq =>
            let cmds := (chunks2 (splitWs commands)).map chunkCmd
            match runRepeat (logoExecute ctx fuel) cmds (ratToUsize cq) i t with
            | (i', t', .ok _) => (i', t', .ok .cont)
            | (i', t', .error e) => (i', t', .error e)
    else if head = str "TO" then
      let proc_name := upperL (trimL (argOpt.getD []))
      if proc_name.isEmpty then (i, t, .error (str "TO missing procedure name"))
      else
        match scanBody (i.program_lines.drop (i.current_line + 1)) (i.current_line + 1) [] with
        | some (idx, body) =>
          ({ i with
              logo_procedures := insertMap i.logo_procedures proc_name body,
              current_line := idx }, t, .ok .cont)
        | none => (i, t, .error (str "TO " ++ proc_name ++ str " missing END"))
    else if head = str "END" then
      (i, t, .ok .cont)
    else
      match lookupMap i.logo_procedures head with
      | some body =>
        match runLines (logoExecute ctx fuel) body i t with
        | (i', t', .ok _) => (i', t', .ok .cont)
        | (i', t', .error e) => (i', t', .error e)
      | none =>
        (i.log_output (str "Unknown Logo command: " ++ head), t, .ok .cont)

/-! ## PILOT executor -/

/-- Modelled from the spec: the PILOT executor module (`languages/pilot`) is
absent from the sources (only its callers and the `languages/mod.rs`
declaration are present).  Behaviour follows spec §4.5: evaluate a simple
comparison (`<= >= <> = < >` splitting, both sides through the expression
evaluator) or fall back to nonzero-truthiness, for the `C:` match flag. -/
def evalCondition (fns : FloatFns) (vars : List (Str × ℚ)) (payload : Str) :
    Except Str Bool :=
  let tryOp (opstr : Str) (cmp : ℚ → ℚ → Bool) : Option (Except Str Bool) :=
    match findSubstr payload opstr with
    | some pos =>
      some (match evaluate fns vars (trimL (payload.take pos)) with
        | .error e => .error e
        | .ok a =>
          match evaluate fns vars (trimL (payload.drop (pos + opstr.length))) with
          | .error e => .error e
          | .ok b => .ok (cmp a b))
    | none => none
  match tryOp (str "<=") (fun a b => decide (a ≤ b)) with
  | some r => r
  | none =>
  match tryOp (str ">=") (fun a b => decide (b ≤ a)) with
  | some r => r
  | none =>
  match tryOp (str "<>") (fun a b => decide (a ≠ b)) with
  | some r => r
  | none =>
  match tryOp (str "<") (fun a b => decide (a < b)) with
  | some r => r
  | none =>
  match tryOp (str ">") (fun a b => decide (b < a)) with
  | some r => r
  | none =>
  match tryOp (str "=") (fun a b => decide (a = b)) with
  | some r => r
  | none =>
    match evaluate fns vars (trimL payload) with
    | .error e => .error e
    | .ok v => .ok (decide (v ≠ 0))

/-- Modelled from the spec: the PILOT executor (`languages/pilot` is absent
from the sources; only its callers survive).  One-letter codes before `:`
per spec §4.5 — `T` type with `*VAR*` interpolation, `A` accept
(suspend/resume input), `J` jump to label, `Y`/`N` branch on the match
flag, `U` update a variable (numeric, falling back to string), `C` compute
the match flag, `R` remark, `E` end; a classified-PILOT line without the
code/colon shape is typed as bare text (spec §4.4 step 4). -/
def pilotExecute (fns : FloatFns) (i : Interp) (command : Str) :
    Interp × Except Str ExecutionResult :=
  let cmd := trimL command
  if cmd.get? 1 = some ':' then
    let code := Char.toUpper (cmd.headD ' ')
    let payload := cmd.drop 2
    if code = 'T' then (i.log_output (i.interpolate_text payload), .ok .cont)
    else if code = 'A' then
      let v := trimL payload
      (i.start_input_request (v ++ str "? ") v false, .ok .waitForInput)
    else if code = 'J' then
      match i.jump_to_label (trimL payload) with
      | some idx => (i, .ok (.jump idx))
      | none => (i, .error (str "Invalid label: " ++ trimL payload))
    else if code = 'Y' ∨ code = 'N' then
      let want := code = 'Y'
      if i.match_flag = want then
        let label := trimL payload
        if label.isEmpty then (i, .ok .cont)
        else
          match i.jump_to_label label with
          | some idx => (i, .ok (.jump idx))
          | none => (i, .error (str "Invalid label: " ++ label))
      else (i, .ok .cont)
    else if code = 'U' then
      match findCharIdx payload '=' with
      | none => (i, .ok .cont)
      | some pos =>
        let var_name := trimL (payload.take pos)
        let expr := trimL (payload.drop (pos + 1))
        match evaluate fns i.vars expr with
        | .ok v => ({ i with vars := insertMap i.vars var_name v }, .ok .cont)
        | .error _ =>
          ({ i with string_variables := insertMap i.string_variables var_name expr },
           .ok .cont)
    else if code = 'C' then
      match evalCondition fns i.vars payload with
      | .ok b => ({ i with match_flag := b, last_match_set := true }, .ok .cont)
      | .error e => (i, .error e)
    else if code = 'R' then (i, .ok .cont)
    else if code = 'E' then (i, .ok .stop)
    else if code = 'L' then (i, .ok .cont)
    else (i.log_output (str "Unknown PILOT command: " ++ [code]), .ok .cont)
  else
    (i.log_output (i.interpolate_text cmd), .ok .cont)

/-! ## Execution loop (`Interpreter::execute`) -/

/-- `Interpreter::execute_line`: classify the line's dialect and dispatch.
BASIC gets fuel `length + 1` (inline `IF` recursion strictly shrinks the
command); Logo gets the constant replay-depth bound described at
`logoExecute`. -/
def execute_line (ctx : Ctx K) (i : Interp) (command : Str) (t : TurtleState K) :
    Interp × TurtleState K × Except Str ExecutionResult :=
  match i.determine_command_type command with
  | .pilot =>
    let (i', r) := pilotExecute ctx.fns i command
    (i', t, r)
  | .basic => basicExecute ctx (command.length + 1) i command t
  | .logo => logoExecute ctx 1000 i command t
  | _ => (i, t, .ok .cont)

/-- The fetch–execute loop of `Interpreter::execute`, returning the final
state and the number of iterations consumed; the fuel is the remaining
iteration budget (`max_iterations − iterations`), so running out of fuel is
exactly the `iterations < max_iterations` loop exit.  The wall-clock
timeout check (`Instant::now`, 10 s) has no counterpart in a shallow
embedding and is modelled as never firing — none of the claims' programs
depend on it. -/
def execGo (ctx : Ctx K) :
    ℕ → Interp → TurtleState K → Interp × TurtleState K × ℕ
  | 0, i, t => (i, t, 0)
  | fuel + 1, i, t =>
    if i.current_line < i.program_lines.length then
      let command := (i.program_lines.getD i.current_line (none, [])).2
      if (trimL command).isEmpty then
        let (i', t', c) := execGo ctx fuel { i with current_line := i.current_line + 1 } t
        (i', t', c + 1)
      else
        match execute_line ctx i command t with
        | (i1, t1, .error e) =>
          let i2 := i1.log_output
            (str "❌ Error at line " ++ natDigits (i1.current_line + 1) ++ str ": " ++ e)
          let (i', t', c) := execGo ctx fuel { i2 with current_line := i2.current_line + 1 } t1
          (i', t', c + 1)
        | (i1, t1, .ok .cont) =>
          let (i', t', c) := execGo ctx fuel { i1 with current_line := i1.current_line + 1 } t1
          (i', t', c + 1)
        | (i1, t1, .ok .stop) => (i1, t1, 1)
        | (i1, t1, .ok (.jump n)) =>
          let (i', t', c) := execGo ctx fuel { i1 with current_line := n } t1
          (i', t', c + 1)
        | (i1, t1, .ok .waitForInput) => (i1, t1, 1)
    else (i, t, 0)

/-- The iteration ceiling (`max_iterations` in `Interpreter::execute`). -/
def max_iterations : ℕ := 100000

/-- `Interpreter::execute`: clear the output only on a fresh run, loop up to
`max_iterations` fetch–execute cycles, and append the warning line when the
ceiling was reached.  Returns (interpreter, turtle, returned output).  (In
Rust the return is `Ok(output)` except for the wall-clock timeout, which
the embedding cannot model and no claim exercises.) -/
def Interp.execute (ctx : Ctx K) (i : Interp) (t : TurtleState K) :
    Interp × TurtleState K × List Str :=
  let i0 := if i.current_line = 0 then { i with output := [] } else i
  let (i1, t1, consumed) := execGo ctx max_iterations i0 t
  let i2 :=
    if max_iterations ≤ consumed then
      i1.log_output (str "⚠️ Warning: Maximum iterations reached")
    else i1
  (i2, t1, i2.output)

/-- `d.to_radians().sin()` over the reals: the idealized semantics of the
`f32` computation in `TurtleState::forward`. -/
noncomputable def sinDeg (d : ℝ) : ℝ := Real.sin (d * Real.pi / 180)

/-- `d.to_radians().cos()` over the reals. -/
noncomputable def cosDeg (d : ℝ) : ℝ := Real.cos (d * Real.pi / 180)

/-- The real-trigonometry model of the turtle's heading→displacement maps. -/
noncomputable def realTrig : Trig ℝ := ⟨sinDeg, cosDeg⟩

/-- A concrete trigonometry model over `ℚ`, used where a claim's program
never moves the turtle (the values are irrelevant and never consulted). -/
def zeroTrig : Trig ℚ := ⟨fun _ => 0, fun _ => 0⟩

/-- Concrete executor context over `ℚ` for closed program runs. -/
def ctx0 : Ctx ℚ := ⟨zeroTrig, zeroFns⟩

/-! ###########################################################
    Theorems
########################################################### -/

theorem qAdd_eq (a b : ℚ) : qAdd a b = a + b := (Rat.add_def' a b).symm

theorem qSub_eq (a b : ℚ) : qSub a b = a - b := (Rat.sub_def' a b).symm

theorem qMul_eq (a b : ℚ) : qMul a b = a * b := by
  rw [qMul, Rat.mul_def, Rat.normalize_eq_mkRat]

theorem qInv_eq (a : ℚ) : qInv a = a⁻¹ := (Rat.inv_def a).symm

theorem qDiv_eq (a b : ℚ) : qDiv a b = a / b := by
  rw [qDiv, qMul_eq, qInv_eq, div_eq_mul_inv]

theorem qAbs_eq (a : ℚ) : qAbs a = |a| := by
  rw [qAbs]
  by_cases h : a.num < 0
  · rw [if_pos h, abs_of_neg (Rat.num_neg.1 h)]
  · rw [if_neg h, abs_of_nonneg (Rat.num_nonneg.1 (not_lt.1 h))]

theorem qPow_eq (a : ℚ) (n : ℕ) : qPow a n = a ^ n := by
  induction n with
  | zero => simp [qPow]
  | succ n ih => rw [qPow, qMul_eq, ih, pow_succ]

theorem f64Epsilon_eq : f64Epsilon = 1 / 2 ^ 52 := by
  rw [f64Epsilon, Rat.mkRat_eq_div]
  norm_num

theorem shunt_append (xs ys st : List Token) :
    shunt (xs ++ ys) st =
      ((shunt xs st).1 ++ (shunt ys (shunt xs st).2).1, (shunt ys (shunt xs st).2).2) := by
  induction xs generalizing st with
  | nil => simp [shunt]
  | cons t ts ih => simp [shunt, ih, List.append_assoc]

theorem popWhileGE_split (pv : ℕ) (ops st : List Token)
    (h1 : ∀ t ∈ ops, ∃ c, t = .op c ∧ pv ≤ prec c) (h2 : stopAt pv st) :
    popWhileGE pv (ops ++ st) = (ops, st) := by
  induction ops with
  | nil =>
    match st with
    | [] => simp [popWhileGE]
    | .op c :: rest =>
      have hc := h2 c rest rfl
      simp [popWhileGE, Nat.not_le.2 hc]
    | .number q :: rest => simp [popWhileGE]
    | .var n :: rest => simp [popWhileGE]
    | .func n :: rest => simp [popWhileGE]
    | .lparen :: rest => simp [popWhileGE]
    | .rparen :: rest => simp [popWhileGE]
    | .comma :: rest => simp [popWhileGE]
  | cons t ops ih =>
    obtain ⟨c, rfl, hc⟩ := h1 t (List.mem_cons_self t ops)
    have := ih (fun t ht => h1 t (List.mem_cons_of_mem _ ht))
    simp [popWhileGE, hc, this]

theorem popUntilLParen_split (ops st : List Token)
    (h : ∀ t ∈ ops, t ≠ Token.lparen) :
    popUntilLParen (ops ++ .lparen :: st) = (ops, st) := by
  induction ops with
  | nil => simp [popUntilLParen]
  | cons t ops ih =>
    have hne := h t (List.mem_cons_self t ops)
    have := ih (fun t ht => h t (List.mem_cons_of_mem _ ht))
    match t, hne with
    | .number q, _ => simp [popUntilLParen, this]
    | .var n, _ => simp [popUntilLParen, this]
    | .func n, _ => simp [popUntilLParen, this]
    | .op c, _ => simp [popUntilLParen, this]
    | .rparen, _ => simp [popUntilLParen, this]
    | .comma, _ => simp [popUntilLParen, this]

theorem afterRParen_split (ops st : List Token)
    (h : ∀ t ∈ ops, t ≠ Token.lparen) (hst : notFuncTop st) :
    afterRParen (ops ++ .lparen :: st) = (ops, st) := by
  have h1 := popUntilLParen_split ops st h
  match st, hst with
  | [], _ => simp [afterRParen, h1]
  | .number q :: rest, _ => simp [afterRParen, h1]
  | .var n :: rest, _ => simp [afterRParen, h1]
  | .op c :: rest, _ => simp [afterRParen, h1]
  | .lparen :: rest, _ => simp [afterRParen, h1]
  | .rparen :: rest, _ => simp [afterRParen, h1]
  | .comma :: rest, _ => simp [afterRParen, h1]

theorem blocking_notFuncTop {p : ℕ} {st : List Token} (h : blocking p st) :
    notFuncTop st := by
  match st with
  | [] => trivial
  | .func f :: rest => exact absurd h (by simp [blocking])
  | .number q :: rest => trivial
  | .var n :: rest => trivial
  | .op c :: rest => trivial
  | .lparen :: rest => trivial
  | .rparen :: rest => trivial
  | .comma :: rest => trivial

theorem parser_shunt_ok : ∀ fuel, PrimOK fuel ∧ EOK fuel ∧ LoopOK fuel := by
  intro fuel
  induction fuel with
  | zero =>
    refine ⟨?_, ?_, ?_⟩
    · intro ts e rest h; simp [parsePrimary] at h
    · intro p ts e rest h; simp [parseE] at h
    · intro p l ts e rest h; simp [parseLoop] at h
  | succ fuel ih =>
    obtain ⟨ihP, ihE, ihL⟩ := ih
    refine ⟨?_, ?_, ?_⟩
    · -- PrimOK (fuel+1)
      intro ts e rest h
      match ts, h with
      | .number q :: ts', h =>
        simp only [parsePrimary, Option.some.injEq, Prod.mk.injEq] at h
        obtain ⟨rfl, rfl⟩ := h
        exact ⟨[.number q], rfl, fun st _ => by simp [shunt, shuntStep, rpnOf]⟩
      | .lparen :: ts', h =>
        simp only [parsePrimary] at h
        rcases hE : parseE fuel 1 ts' with _ | ⟨e', ts2'⟩
        · rw [hE] at h; exact absurd h (by simp)
        · rw [hE] at h
          match ts2', h with
          | .rparen :: ts2, h =>
            simp only [Option.some.injEq, Prod.mk.injEq] at h
            obtain ⟨rfl, rfl⟩ := h
            obtain ⟨cE, hts', _, hsh⟩ := ihE _ _ _ _ hE
            refine ⟨.lparen :: cE ++ [.rparen], by simp [hts'], ?_⟩
            intro st hst
            obtain ⟨out, ops, hshE, houtops, hops⟩ :=
              hsh (.lparen :: st) (by simp [blocking])
            have hops' : ∀ t ∈ ops, t ≠ Token.lparen := by
              intro t ht
              obtain ⟨c, rfl, _⟩ := hops t ht
              simp
            have hA : afterRParen (ops ++ .lparen :: st) = (ops, st) :=
              afterRParen_split ops st hops' hst
            have : shunt (cE ++ [.rparen]) (.lparen :: st) = (out ++ ops, st) := by
              rw [shunt_append, hshE]
              simp [shunt, shuntStep, hA]
            simp [shunt, shuntStep, this, houtops]
    · -- EOK (fuel+1)
      intro p ts e rest h
      simp only [parseE] at h
      rcases hP : parsePrimary fuel ts with _ | ⟨l, ts1⟩
      · rw [hP] at h; exact absurd h (by simp)
      · rw [hP] at h
        obtain ⟨cP, hts, hshP⟩ := ihP ts l ts1 hP
        obtain ⟨cL, hts1, hexit, hshL⟩ := ihL p l ts1 e rest h
        refine ⟨cP ++ cL, by simp [hts, hts1], hexit, ?_⟩
        intro st hbl
        obtain ⟨out, ops', hshL', hprop, hops'⟩ :=
          hshL st [] hbl (by intro t ht; simp at ht) (by intro c hc t ht; simp at ht)
        refine ⟨rpnOf l ++ out, ops', ?_, ?_, hops'⟩
        · rw [shunt_append, hshP st (blocking_notFuncTop hbl)]
          simp only [List.nil_append] at hshL'
          simp [hshL', List.append_assoc]
        · have := hprop (rpnOf l) (by simp)
          simpa [List.append_assoc] using this
    · -- LoopOK (fuel+1)
      intro p l ts e rest h
      match ts, h with
      | [], h =>
        simp only [parseLoop, Option.some.injEq, Prod.mk.injEq] at h
        obtain ⟨rfl, rfl⟩ := h
        refine ⟨[], rfl, by intro c r' hc; simp at hc, ?_⟩
        intro st ops0 _ hops0 _
        exact ⟨[], ops0, by simp [shunt], fun pre hpre => by simpa using hpre, hops0⟩
      | .number q :: ts', h =>
        simp only [parseLoop, Option.some.injEq, Prod.mk.injEq] at h
        obtain ⟨rfl, rfl⟩ := h
        refine ⟨[], rfl, by intro c r' hc; simp at hc, ?_⟩
        intro st ops0 _ hops0 _
        exact ⟨[], ops0, by simp [shunt], fun pre hpre => by simpa using hpre, hops0⟩
      | .var n :: ts', h =>
        simp only [parseLoop, Option.some.injEq, Prod.mk.injEq] at h
        obtain ⟨rfl, rfl⟩ := h
        refine ⟨[], rfl, by intro c r' hc; simp at hc, ?_⟩
        intro st ops0 _ hops0 _
        exact ⟨[], ops0, by simp [shunt], fun pre hpre => by simpa using hpre, hops0⟩
      | .func n :: ts', h =>
        simp only [parseLoop, Option.some.injEq, Prod.mk.injEq] at h
        obtain ⟨rfl, rfl⟩ := h
        refine ⟨[], rfl, by intro c r' hc; simp at hc, ?_⟩
        intro st ops0 _ hops0 _
        exact ⟨[], ops0, by simp [shunt], fun pre hpre => by simpa using hpre, hops0⟩
      | .lparen :: ts', h =>
        simp only [parseLoop, Option.some.injEq, Prod.mk.injEq] at h
        obtain ⟨rfl, rfl⟩ := h
        refine ⟨[], rfl, by intro c r' hc; simp at hc, ?_⟩
        intro st ops0 _ hops0 _
        exact ⟨[], ops0, by simp [shunt], fun pre hpre => by simpa using hpre, hops0⟩
      | .rparen :: ts', h =>
        simp only [parseLoop, Option.some.injEq, Prod.mk.injEq] at h
        obtain ⟨rfl, rfl⟩ := h
        refine ⟨[], rfl, by intro c r' hc; simp at hc, ?_⟩
        intro st ops0 _ hops0 _
        exact ⟨[], ops0, by simp [shunt], fun pre hpre => by simpa using hpre, hops0⟩
      | .comma :: ts', h =>
        simp only [parseLoop, Option.some.injEq, Prod.mk.injEq] at h
        obtain ⟨rfl, rfl⟩ := h
        refine ⟨[], rfl, by intro c r' hc; simp at hc, ?_⟩
        intro st ops0 _ hops0 _
        exact ⟨[], ops0, by simp [shunt], fun pre hpre => by simpa using hpre, hops0⟩
      | .op c :: ts', h =>
        simp only [parseLoop] at h
        by_cases hpc : p ≤ prec c
        · rw [if_pos hpc] at h
          rcases hE : parseE fuel (prec c + 1) ts' with _ | ⟨r, ts2⟩
          · rw [hE] at h; exact absurd h (by simp)
          · rw [hE] at h
            obtain ⟨cR, hts', hexitR, hshR⟩ := ihE (prec c + 1) ts' r ts2 hE
            obtain ⟨cL2, hts2, hexitL, hshL⟩ := ihL p (.bin c l r) ts2 e rest h
            refine ⟨.op c :: cR ++ cL2, by simp [hts', hts2], hexitL, ?_⟩
            intro st ops0 hbl hops0 hhb
            have hops0c : ∀ t ∈ ops0, ∃ c', t = .op c' ∧ prec c ≤ prec c' :=
              hhb c rfl
            have hstop : stopAt (prec c) st := by
              intro c'' rest'' hst
              subst hst
              have : prec c'' < p := hbl
              exact lt_of_lt_of_le this hpc
            have hpop : popWhileGE (prec c) (ops0 ++ st) = (ops0, st) :=
              popWhileGE_split (prec c) ops0 st hops0c hstop
            obtain ⟨outR, opsR, hshR', houtR, hopsR⟩ :=
              hshR (.op c :: st) (by simp [blocking])
            have hops0' : allOpsGE p (opsR ++ [.op c]) := by
              intro t ht
              rcases List.mem_append.1 ht with hmem | hmem
              · obtain ⟨c', rfl, hc'⟩ := hopsR t hmem
                exact ⟨c', rfl, le_trans (le_trans hpc (Nat.le_succ _)) hc'⟩
              · simp at hmem
                subst hmem
                exact ⟨c, rfl, hpc⟩
            have hhb2 : headBound ts2 (opsR ++ [.op c]) := by
              intro c'' hhead t ht
              have hlt : prec c'' < prec c + 1 := by
                match ts2, hhead with
                | .op c'' :: ts2', hhead =>
                  simp at hhead
                  subst hhead
                  exact hexitR c'' ts2' rfl
              rcases List.mem_append.1 ht with hmem | hmem
              · obtain ⟨c', rfl, hc'⟩ := hopsR t hmem
                exact ⟨c', rfl, le_trans (Nat.le_of_lt_succ hlt) (Nat.le_of_succ_le hc')⟩
              · simp at hmem
                subst hmem
                exact ⟨c, rfl, Nat.le_of_lt_succ hlt⟩
            obtain ⟨outL, ops'', hshL', hprop, hops''⟩ :=
              hshL st (opsR ++ [.op c]) hbl hops0' hhb2
            refine ⟨ops0 ++ outR ++ outL, ops'', ?_, ?_, hops''⟩
            · have hstack : (opsR ++ [Token.op c]) ++ st = opsR ++ .op c :: st := by
                simp [List.append_assoc]
              rw [hstack] at hshL'
              have hcomb : shunt (cR ++ cL2) (.op c :: st) =
                  (outR ++ outL, ops'' ++ st) := by
                rw [shunt_append, hshR']
                simp [hshL']
              simp [shunt, shuntStep, hpop, hcomb, List.append_assoc]
            · intro pre hpre
              have hpre' : (pre ++ ops0 ++ outR) ++ (opsR ++ [.op c]) =
                  rpnOf (.bin c l r) := by
                simp only [rpnOf]
                calc (pre ++ ops0 ++ outR) ++ (opsR ++ [Token.op c])
                    = (pre ++ ops0) ++ ((outR ++ opsR) ++ [Token.op c]) := by
                      simp [List.append_assoc]
                  _ = rpnOf l ++ (rpnOf r ++ [Token.op c]) := by rw [hpre, houtR]
                  _ = rpnOf l ++ rpnOf r ++ [Token.op c] := by simp [List.append_assoc]
              have := hprop (pre ++ ops0 ++ outR) hpre'
              calc pre ++ (ops0 ++ outR ++ outL) ++ ops''
                  = (pre ++ ops0 ++ outR) ++ outL ++ ops'' := by simp [List.append_assoc]
                _ = rpnOf e := this
        · rw [if_neg hpc] at h
          simp only [Option.some.injEq, Prod.mk.injEq] at h
          obtain ⟨rfl, rfl⟩ := h
          refine ⟨[], rfl, ?_, ?_⟩
          · intro c'' rest'' hc
            simp only [List.cons.injEq] at hc
            obtain ⟨hc1, _⟩ := hc
            cases hc1
            exact Nat.not_le.1 hpc
          · intro st ops0 _ hops0 _
            exact ⟨[], ops0, by simp [shunt], fun pre hpre => by simpa using hpre, hops0⟩

theorem to_rpn_eq_rpnOf {fuel : ℕ} {ts : List Token} {e : Expr}
    (h : parseE fuel 1 ts = some (e, [])) : to_rpn ts = rpnOf e := by
  obtain ⟨consumed, hts, _, hsh⟩ := (parser_shunt_ok fuel).2.1 1 ts e [] h
  simp only [List.append_nil] at hts
  subst hts
  obtain ⟨out, ops, hshunt, houtops, _⟩ := hsh [] (by trivial)
  simp only [List.append_nil] at hshunt
  simp [to_rpn, hshunt, houtops]

theorem evalRPNAux_rpnOf (fns : FloatFns) (vars : List (Str × ℚ)) (e : Expr) :
    ∀ ts stack, evalRPNAux fns vars (rpnOf e ++ ts) stack =
      match evalAST e with
      | .ok v => evalRPNAux fns vars ts (v :: stack)
      | .error m => .error m := by
  induction e with
  | num q => intro ts stack; simp [rpnOf, evalRPNAux, evalAST]
  | bin c l r ihl ihr =>
    intro ts stack
    have hassoc : rpnOf (.bin c l r) ++ ts = rpnOf l ++ (rpnOf r ++ (.op c :: ts)) := by
      simp [rpnOf, List.append_assoc]
    rw [hassoc, ihl]
    rcases hl : evalAST l with el | a
    · simp [evalAST, hl]
    · dsimp only
      rw [ihr]
      rcases hr : evalAST r with er | b
      · simp [evalAST, hl, hr]
      · rcases hop : applyBinOp c a b with eo | v
        · simp [evalRPNAux, evalAST, hl, hr, hop]
        · simp [evalRPNAux, evalAST, hl, hr, hop]

/-- C1.  For every well-formed variable-free arithmetic expression —
every token stream accepted by the standard precedence-climbing parser
`parseE` of the spec's grammar (`+ -` = 1, `* / %` = 2, `^` = 3,
left-associative, parentheses override) — the evaluator's shunting-yard /
RPN pipeline computes exactly the AST-directed standard semantics; in
particular `evaluate "2 + 3 * 4" = 14` and `evaluate "(2 + 3) * 4" = 20`. -/
theorem evaluate_follows_standard_precedence :
    (∀ (fns : FloatFns) (vars : List (Str × ℚ)) (s : Str) (fuel : ℕ)
        (ts : List Token) (e : Expr),
        tokenize s = .ok ts → parseE fuel 1 ts = some (e, []) →
        evaluate fns vars s = evalAST e)
    ∧ evaluate zeroFns [] (str "2 + 3 * 4") = .ok 14
    ∧ evaluate zeroFns [] (str "(2 + 3) * 4") = .ok 20 := by
  refine ⟨?_, by decide, by decide⟩
  intro fns vars s fuel ts e htok hparse
  have hrpn := to_rpn_eq_rpnOf hparse
  have heval : evaluate_rpn fns vars (rpnOf e) = evalAST e := by
    have := evalRPNAux_rpnOf fns vars e [] []
    simp only [List.append_nil] at this
    rcases he : evalAST e with m | v
    · rw [he] at this
      simp [evaluate_rpn, this]
    · rw [he] at this
      simp [evaluate_rpn, this, evalRPNAux]
  simp [evaluate, htok, hrpn, heval]

/-- Witness for C1 at the concrete input `2 + 3 * 4`. -/
theorem evaluate_follows_standard_precedence_witness :
    evaluate zeroFns [] (str "2 + 3 * 4") =
      evalAST (.bin '+' (.num 2) (.bin '*' (.num 3) (.num 4))) :=
  evaluate_follows_standard_precedence.1 zeroFns [] (str "2 + 3 * 4") 10
    [.number 2, .op '+', .number 3, .op '*', .number 4]
    (.bin '+' (.num 2) (.bin '*' (.num 3) (.num 4))) (by decide) (by decide)

/-- C2.  Whenever the evaluator applies `/` to operands `a / b` with
`|b| < f64::EPSILON`, the result is an error — for every numerator `a`,
every variable environment and every model of the transcendental
functions; shown both for the operator step itself and for a full
`evaluate_rpn` run. -/
theorem division_near_zero_errors :
    ∀ (fns : FloatFns) (vars : List (Str × ℚ)) (a b : ℚ),
      |b| < f64Epsilon →
      applyBinOp '/' a b = .error (str "Division by zero")
      ∧ evaluate_rpn fns vars [.number a, .number b, .op '/'] =
          .error (str "Division by zero") := by
  intro fns vars a b hb
  have hb' : qAbs b < f64Epsilon := by rw [qAbs_eq]; exact hb
  have hop : applyBinOp '/' a b = .error (str "Division by zero") := by
    simp [applyBinOp, hb']
  exact ⟨hop, by simp [evaluate_rpn, evalRPNAux, hop]⟩

/-- Witness for C2 at numerator 5, denominator 0. -/
theorem division_near_zero_errors_witness :
    applyBinOp '/' 5 0 = .error (str "Division by zero")
    ∧ evaluate_rpn zeroFns [] [.number 5, .number 0, .op '/'] =
        .error (str "Division by zero") :=
  division_near_zero_errors zeroFns [] 5 0
    (by rw [f64Epsilon_eq]; norm_num)

/-- C3.  The per-line dialect classifier decides in the fixed order of
`determine_command_type`: second-character colon ⇒ PILOT; else first token
(uppercased) in the Logo keyword set or the Logo procedure table ⇒ Logo;
else first token in the BASIC keyword set ⇒ BASIC; else PILOT — in
particular the Logo check precedes the BASIC check. -/
theorem classifier_order (i : Interp) (command : Str) :
    (1 < (trimL command).length ∧ (trimL command).get? 1 = some ':' →
      i.determine_command_type command = .pilot)
    ∧ (¬(1 < (trimL command).length ∧ (trimL command).get? 1 = some ':') →
        (logoKeywords.contains (upperL (firstWordL (trimL command))) = true
          ∨ containsMap i.logo_procedures (upperL (firstWordL (trimL command))) = true) →
        i.determine_command_type command = .logo)
    ∧ (¬(1 < (trimL command).length ∧ (trimL command).get? 1 = some ':') →
        logoKeywords.contains (upperL (firstWordL (trimL command))) = false →
        containsMap i.logo_procedures (upperL (firstWordL (trimL command))) = false →
        basicKeywords.contains (upperL (firstWordL (trimL command))) = true →
        i.determine_command_type command = .basic)
    ∧ (¬(1 < (trimL command).length ∧ (trimL command).get? 1 = some ':') →
        logoKeywords.contains (upperL (firstWordL (trimL command))) = false →
        containsMap i.logo_procedures (upperL (firstWordL (trimL command))) = false →
        basicKeywords.contains (upperL (firstWordL (trimL command))) = false →
        i.determine_command_type command = .pilot) := by
  refine ⟨?_, ?_, ?_, ?_⟩
  · intro h
    simp only [Interp.determine_command_type]
    rw [if_pos h]
  · intro hc hl
    have hor : (logoKeywords.contains (upperL (firstWordL (trimL command)))
        || containsMap i.logo_procedures (upperL (firstWordL (trimL command)))) = true := by
      rcases hl with hl | hl
      · rw [hl, Bool.true_or]
      · rw [hl, Bool.or_true]
    simp only [Interp.determine_command_type]
    rw [if_neg hc, if_pos hor]
  · intro hc hl1 hl2 hb
    have hnor : ¬((logoKeywords.contains (upperL (firstWordL (trimL command)))
        || containsMap i.logo_procedures (upperL (firstWordL (trimL command)))) = true) := by
      simp only [Bool.or_eq_true, not_or]
      exact ⟨by simpa using hl1, by simp [hl2]⟩
    simp only [Interp.determine_command_type]
    rw [if_neg hc, if_neg hnor, if_pos hb]
  · intro hc hl1 hl2 hb
    have hnor : ¬((logoKeywords.contains (upperL (firstWordL (trimL command)))
        || containsMap i.logo_procedures (upperL (firstWordL (trimL command)))) = true) := by
      simp only [Bool.or_eq_true, not_or]
      exact ⟨by simpa using hl1, by simp [hl2]⟩
    have hnb : ¬(basicKeywords.contains (upperL (firstWordL (trimL command))) = true) := by
      simpa using hb
    simp only [Interp.determine_command_type]
    rw [if_neg hc, if_neg hnor, if_neg hnb]

/-- Witness for C3 on four concrete lines: `T:X` (PILOT by colon),
`FORWARD 10` (Logo), `PRINT 1` (BASIC), `hello world` (default PILOT). -/
theorem classifier_order_witness :
    Interp.new.determine_command_type (str "T:X") = .pilot
    ∧ Interp.new.determine_command_type (str "FORWARD 10") = .logo
    ∧ Interp.new.determine_command_type (str "PRINT 1") = .basic
    ∧ Interp.new.determine_command_type (str "hello world") = .pilot :=
  ⟨(classifier_order Interp.new (str "T:X")).1 (by decide),
   (classifier_order Interp.new (str "FORWARD 10")).2.1 (by decide) (Or.inl (by decide)),
   (classifier_order Interp.new (str "PRINT 1")).2.2.1 (by decide) (by decide)
     (by decide) (by decide),
   (classifier_order Interp.new (str "hello world")).2.2.2 (by decide) (by decide)
     (by decide) (by decide)⟩

theorem execGo_consumed_le (ctx : Ctx ℚ) :
    ∀ (fuel : ℕ) (i : Interp) (t : TurtleState ℚ), (execGo ctx fuel i t).2.2 ≤ fuel := by
  intro fuel
  induction fuel with
  | zero => intro i t; simp [execGo]
  | succ fuel ih =>
    intro i t
    have hstep : ∀ (S : Interp) (tt : TurtleState ℚ),
        (let r := execGo ctx fuel S tt
         (r.1, r.2.1, r.2.2 + 1)).2.2 ≤ fuel + 1 := by
      intro S tt
      simpa using Nat.succ_le_succ (ih S tt)
    simp only [execGo]
    split
    · split
      · exact hstep _ _
      · rcases hl : execute_line ctx i ((i.program_lines.getD i.current_line (none, [])).2) t with
          ⟨i1, t1, r⟩
        match r with
        | .error e => exact hstep _ _
        | .ok .cont => exact hstep _ _
        | .ok .stop => simp
        | .ok (.jump n) => exact hstep _ _
        | .ok .waitForInput => simp
    · simp

/-- One fetch–execute step of the `10 GOTO 10` program is a self-loop of the
loaded state, consuming one iteration. -/
theorem goto_loop_step (ctx : Ctx ℚ) (t : TurtleState ℚ) (fuel : ℕ) :
    execGo ctx (fuel + 1) (Interp.new.load_program (str "10 GOTO 10")) t =
      ((execGo ctx fuel (Interp.new.load_program (str "10 GOTO 10")) t).1,
       (execGo ctx fuel (Interp.new.load_program (str "10 GOTO 10")) t).2.1,
       (execGo ctx fuel (Interp.new.load_program (str "10 GOTO 10")) t).2.2 + 1) := by
  rfl

theorem goto_loop_inv (ctx : Ctx ℚ) :
    ∀ (fuel : ℕ) (t : TurtleState ℚ),
      execGo ctx fuel (Interp.new.load_program (str "10 GOTO 10")) t =
        (Interp.new.load_program (str "10 GOTO 10"), t, fuel) := by
  intro fuel
  induction fuel with
  | zero => intro t; rfl
  | succ fuel ih =>
    intro t
    rw [goto_loop_step, ih]

/-- Generic shape of an `execute` run that hits the iteration ceiling: the
returned output is the loop's final output with the warning appended. -/
theorem execute_output_warning (ctx : Ctx ℚ) (i i1 : Interp)
    (t t1 : TurtleState ℚ) (c : ℕ)
    (hline : i.current_line = 0) (hout : { i with output := [] } = i)
    (h : execGo ctx max_iterations i t = (i1, t1, c)) (hc : max_iterations ≤ c) :
    (Interp.execute ctx i t).2.2 =
      (i1.log_output (str "⚠️ Warning: Maximum iterations reached")).output := by
  unfold Interp.execute
  rw [if_pos hline, hout]
  dsimp only
  rw [h]
  simp [hc]

/-- C4.  The fetch–execute loop of `execute` performs at most as many
iterations as its budget (so at most `max_iterations = 100000`); and the
one-line program `10 GOTO 10` terminates, is not stopped early by anything
else (it consumes the entire budget in a state-preserving self-loop) and
returns exactly the maximum-iterations warning as its output — prior output
(there is none for this program) preserved, warning appended.  (The Rust
`Err` return exists only for the wall-clock timeout, which the embedding
models as never firing; see `execGo`.) -/
theorem execute_iteration_ceiling :
    (∀ (ctx : Ctx ℚ) (i : Interp) (t : TurtleState ℚ),
        (execGo ctx max_iterations i t).2.2 ≤ max_iterations)
    ∧ (∀ (ctx : Ctx ℚ) (t : TurtleState ℚ),
        (Interp.execute ctx (Interp.new.load_program (str "10 GOTO 10")) t).2.2
          = [str "⚠️ Warning: Maximum iterations reached"]) := by
  constructor
  · intro ctx i t
    exact execGo_consumed_le ctx max_iterations i t
  · intro ctx t
    have hmain := execute_output_warning ctx _ _ t t max_iterations
      (by decide : (Interp.new.load_program (str "10 GOTO 10")).current_line = 0)
      (by decide) (goto_loop_inv ctx max_iterations t) (le_refl _)
    rw [hmain]
    decide

theorem loadLines_stacks :
    ∀ (ls : List Str) (i : Interp) (idx : ℕ),
      (loadLines i idx ls).gosub_stack = i.gosub_stack
      ∧ (loadLines i idx ls).for_stack = i.for_stack := by
  intro ls
  induction ls with
  | nil => intro i idx; exact ⟨rfl, rfl⟩
  | cons line rest ih =>
    intro i idx
    simp only [loadLines]
    split <;> exact ih _ _

/-- The full run of the balanced `FOR I = 1 TO 3 / PRINT I / NEXT I`
program: output lines `1, 2, 3` and both control stacks empty (shared by
the C5 and C7 theorems). -/
theorem for_loop_run_facts :
    ((Interp.execute ctx0
        (Interp.new.load_program (str "FOR I = 1 TO 3\nPRINT I\nNEXT I"))
        TurtleState.new).2.2 = [str "1", str "2", str "3"])
    ∧ ((Interp.execute ctx0
        (Interp.new.load_program (str "FOR I = 1 TO 3\nPRINT I\nNEXT I"))
        TurtleState.new).1.for_stack = [])
    ∧ ((Interp.execute ctx0
        (Interp.new.load_program (str "FOR I = 1 TO 3\nPRINT I\nNEXT I"))
        TurtleState.new).1.gosub_stack = []) := by
  decide

/-- C5.  Executing the BASIC program `FOR I = 1 TO 3 / PRINT I / NEXT I`
emits the numeric output lines `1`, `2`, `3` in order and leaves the
FOR-loop stack empty (the run's turtle and transcendental-function models
are `ctx0`; this program consults neither). -/
theorem for_loop_prints_one_two_three :
    ((Interp.execute ctx0
        (Interp.new.load_program (str "FOR I = 1 TO 3\nPRINT I\nNEXT I"))
        TurtleState.new).2.2 = [str "1", str "2", str "3"])
    ∧ ((Interp.execute ctx0
        (Interp.new.load_program (str "FOR I = 1 TO 3\nPRINT I\nNEXT I"))
        TurtleState.new).1.for_stack = []) :=
  ⟨for_loop_run_facts.1, for_loop_run_facts.2.1⟩

/-- Counterexample to C7 as stated: the one-line program `FOR I = 1 TO 3`
terminates normally (it runs past its last line — the returned output is
empty: no error line and no iteration warning), yet the FOR stack still
holds the unmatched context afterwards. -/
theorem stacks_nonempty_after_normal_end :
    ((Interp.execute ctx0 (Interp.new.load_program (str "FOR I = 1 TO 3"))
        TurtleState.new).1.for_stack.length = 1)
    ∧ ((Interp.execute ctx0 (Interp.new.load_program (str "FOR I = 1 TO 3"))
        TurtleState.new).2.2 = []) := by
  decide

/-- C7 (amended).  The GOSUB and FOR stacks are empty at program start
(both in a fresh interpreter and after any `load_program`); a mismatched
`RETURN` logs `RETURN without GOSUB` and continues, and a mismatched `NEXT`
is a recoverable reported error (the run returns with the error line in the
output) — neither is a crash; and a balanced program such as
`FOR I = 1 TO 3 / PRINT I / NEXT I` leaves both stacks empty again on
normal termination.  (Unmatched `FOR`/`GOSUB` can, however, leave a
non-empty stack on normal termination — see the counterexample.) -/
theorem control_stacks_amended :
    (Interp.new.gosub_stack = [] ∧ Interp.new.for_stack = [])
    ∧ (∀ (i : Interp) (text : Str),
        (i.load_program text).gosub_stack = [] ∧ (i.load_program text).for_stack = [])
    ∧ ((Interp.execute ctx0 (Interp.new.load_program (str "RETURN"))
        TurtleState.new).2.2 = [str "RETURN without GOSUB"])
    ∧ ((Interp.execute ctx0 (Interp.new.load_program (str "NEXT I"))
        TurtleState.new).2.2 = [str "❌ Error at line 1: NEXT without FOR"])
    ∧ ((Interp.execute ctx0
        (Interp.new.load_program (str "FOR I = 1 TO 3\nPRINT I\nNEXT I"))
        TurtleState.new).1.for_stack = []
      ∧ (Interp.execute ctx0
        (Interp.new.load_program (str "FOR I = 1 TO 3\nPRINT I\nNEXT I"))
        TurtleState.new).1.gosub_stack = []) := by
  refine ⟨⟨rfl, rfl⟩, ?_, by decide, by decide,
    for_loop_run_facts.2.1, for_loop_run_facts.2.2⟩
  intro i text
  exact loadLines_stacks (linesOf text) i.reset 0

/-- Counterexample to C6 as stated: with a pending request that does *not*
prefer numeric (`A`-style, `prefer_numeric = false`) and the input `42`,
`provide_input` binds the numeric variable — the claim's "as a string
otherwise" clause says this case should be a string binding, but the
string-first branch of the code still parses numerically. -/
theorem provide_input_numeric_on_string_request :
    lookupMap
      (({ Interp.new with
          pending_input := some ⟨str "X? ", str "X", false⟩,
          pending_resume_line := some 0 } : Interp).provide_input (str "42")).vars
      (str "X") = some 42
    ∧ lookupMap
      (({ Interp.new with
          pending_input := some ⟨str "X? ", str "X", false⟩,
          pending_resume_line := some 0 } : Interp).provide_input (str "42")).string_variables
      (str "X") = none := by
  decide

/-- C6 (amended).  Whenever a pending input request exists (with its resume
line recorded, as `start_input_request` always does), `provide_input value`
consumes it exactly once — nothing is pending afterwards and a second call
is the identity — and advances the cursor to the line after the requesting
one.  The binding is numeric whenever the trimmed value parses as a number
(regardless of the request's preference); otherwise it is a string binding
(the empty string when a string-preferring request receives an all-blank
value, the raw value otherwise). -/
theorem provide_input_amended (i : Interp) (req : InputRequest) (l : ℕ) (value : Str)
    (hp : i.pending_input = some req) (hr : i.pending_resume_line = some l) :
    (i.provide_input value).pending_input = none
    ∧ (i.provide_input value).pending_resume_line = none
    ∧ (∀ v2 : Str, (i.provide_input value).provide_input v2 = i.provide_input value)
    ∧ (i.provide_input value).current_line = l + 1
    ∧ (∀ num : ℚ, parseF64 (trimL value) = some num →
        lookupMap (i.provide_input value).vars req.var_name = some num)
    ∧ (parseF64 (trimL value) = none →
        lookupMap (i.provide_input value).string_variables req.var_name =
          some (if req.prefer_numeric = false ∧ (trimL value).isEmpty then [] else value)) := by
  obtain ⟨prompt, varname, pref⟩ := req
  cases pref with
  | true =>
    rcases hparse : parseF64 (trimL value) with _ | num
    · have hmain : i.provide_input value =
          { i with
            pending_input := none,
            last_input := value,
            string_variables := insertMap i.string_variables varname value,
            pending_resume_line := none,
            current_line := l + 1 } := by
        simp [Interp.provide_input, hp, hparse, hr]
      rw [hmain]
      refine ⟨rfl, rfl, ?_, rfl, ?_, ?_⟩
      · intro v2
        simp [Interp.provide_input]
      · intro num' hnum'
        exact absurd hnum' (by simp)
      · intro _
        simp [lookupMap, insertMap]
    · have hmain : i.provide_input value =
          { i with
            pending_input := none,
            last_input := value,
            vars := insertMap i.vars varname num,
            pending_resume_line := none,
            current_line := l + 1 } := by
        simp [Interp.provide_input, hp, hparse, hr]
      rw [hmain]
      refine ⟨rfl, rfl, ?_, rfl, ?_, ?_⟩
      · intro v2
        simp [Interp.provide_input]
      · intro num' hnum'
        injection hnum' with hnum'
        subst hnum'
        simp [lookupMap, insertMap]
      · intro hnone
        exact absurd hnone (by simp)
  | false =>
    rcases hemp : (trimL value).isEmpty with _ | _
    · rcases hparse : parseF64 (trimL value) with _ | num
      · have hmain : i.provide_input value =
            { i with
              pending_input := none,
              last_input := value,
              string_variables := insertMap i.string_variables varname value,
              pending_resume_line := none,
              current_line := l + 1 } := by
          simp [Interp.provide_input, hp, hparse, hemp, hr]
        rw [hmain]
        refine ⟨rfl, rfl, ?_, rfl, ?_, ?_⟩
        · intro v2
          simp [Interp.provide_input]
        · intro num' hnum'
          exact absurd hnum' (by simp)
        · intro _
          simp [hemp, lookupMap, insertMap]
      · have hmain : i.provide_input value =
            { i with
              pending_input := none,
              last_input := value,
              vars := insertMap i.vars varname num,
              pending_resume_line := none,
              current_line := l + 1 } := by
          simp [Interp.provide_input, hp, hparse, hemp, hr]
        rw [hmain]
        refine ⟨rfl, rfl, ?_, rfl, ?_, ?_⟩
        · intro v2
          simp [Interp.provide_input]
        · intro num' hnum'
          injection hnum' with hnum'
          subst hnum'
          simp [lookupMap, insertMap]
        · intro hnone
          exact absurd hnone (by simp)
    · have hparse : parseF64 (trimL value) = none := by
        have : trimL value = [] := by
          rcases hv : trimL value with _ | ⟨c, rest⟩
          · rfl
          · rw [hv] at hemp
            exact absurd hemp (by simp)
        rw [this]
        decide
      have hmain : i.provide_input value =
          { i with
            pending_input := none,
            last_input := value,
            string_variables := insertMap i.string_variables varname [],
            pending_resume_line := none,
            current_line := l + 1 } := by
        simp [Interp.provide_input, hp, hemp, hr]
      rw [hmain]
      refine ⟨rfl, rfl, ?_, rfl, ?_, ?_⟩
      · intro v2
        simp [Interp.provide_input]
      · intro num' hnum'
        rw [hparse] at hnum'
        exact absurd hnum' (by simp)
      · intro _
        simp [hemp, lookupMap, insertMap]

/-- Witness for C6 (amended) at a numeric-preferring pending request for `X`
at line 3, with input `7`. -/
theorem provide_input_amended_witness :
    (({ Interp.new with
        pending_input := some ⟨str "X? ", str "X", true⟩,
        pending_resume_line := some 3 } : Interp).provide_input (str "7")).pending_input = none
    ∧ (({ Interp.new with
        pending_input := some ⟨str "X? ", str "X", true⟩,
        pending_resume_line := some 3 } : Interp).provide_input (str "7")).current_line = 4 :=
  have h := provide_input_amended
    { Interp.new with
        pending_input := some ⟨str "X? ", str "X", true⟩,
        pending_resume_line := some 3 } ⟨str "X? ", str "X", true⟩ 3 (str "7")
    rfl rfl
  ⟨h.1, h.2.2.2.1⟩

theorem remEuclid_bounds {b : K} (a : K) (hb : 0 < b) :
    0 ≤ remEuclid a b ∧ remEuclid a b < b := by
  have hb' : b ≠ 0 := ne_of_gt hb
  have hfr : remEuclid a b = b * Int.fract (a / b) := by
    rw [remEuclid, Int.fract]
    field_simp
  constructor
  · rw [hfr]
    exact mul_nonneg (le_of_lt hb) (Int.fract_nonneg _)
  · rw [hfr]
    calc b * Int.fract (a / b) < b * 1 :=
          mul_lt_mul_of_pos_left (Int.fract_lt_one _) hb
    _ = b := mul_one b

/-- Counterexample to C8 as stated: the Logo `SETHEADING` command assigns
the evaluated angle to the heading without any normalization —
`SETHEADING 400` from the default turtle leaves heading 400 ∉ [0, 360). -/
theorem setheading_escapes_range :
    (logoExecute ctx0 1000 Interp.new (str "SETHEADING 400") TurtleState.new).2.1.heading
        = (400 : ℚ)
    ∧ ¬((logoExecute ctx0 1000 Interp.new (str "SETHEADING 400")
        TurtleState.new).2.1.heading < 360) := by
  constructor
  · show ((400 : ℚ) : ℚ) = 400
    exact Rat.cast_id 400
  · show ¬(((400 : ℚ) : ℚ) < 360)
    norm_num

/-- C8 (amended).  The turtle operations that change the heading through
`rem_euclid` — `left`, `right` — always normalise it into `[0, 360)`, and
`home` resets it to 0; `forward`, `back` and `goto` leave the heading
unchanged (so they preserve the invariant).  The Logo `SETHEADING`,
however, assigns the raw evaluated angle (see the counterexample), so the
claim's inclusion of `SETHEADING` fails. -/
theorem heading_normalization_amended :
    (∀ (t : TurtleState ℚ) (a : ℚ),
        (0 ≤ (t.left a).heading ∧ (t.left a).heading < 360)
        ∧ (0 ≤ (t.right a).heading ∧ (t.right a).heading < 360))
    ∧ (∀ t : TurtleState ℚ, (t.home).heading = 0)
    ∧ (∀ (trig : Trig ℚ) (d : ℚ) (t : TurtleState ℚ),
        (t.forward trig d).heading = t.heading
        ∧ (t.back trig d).heading = t.heading)
    ∧ (∀ (x y : ℚ) (t : TurtleState ℚ), (t.goto x y).heading = t.heading) := by
  refine ⟨?_, fun t => rfl, fun trig d t => ⟨rfl, rfl⟩, fun x y t => rfl⟩
  intro t a
  exact ⟨remEuclid_bounds (t.heading - a) (by norm_num),
    remEuclid_bounds (t.heading + a) (by norm_num)⟩

/-- C10.  `home` behaves as `goto(0,0)` followed by setting the heading to
0; with the pen down (and in particular away from the origin) it appends
exactly one drawn segment from the old position to the origin — so the
Logo `CLEARSCREEN` (clear, then home) leaves exactly one segment in the
freshly cleared log. -/
theorem home_appends_one_segment (t : TurtleState ℚ)
    (hpen : t.pen_down = true) (_hpos : (t.x, t.y) ≠ ((0 : ℚ), (0 : ℚ))) :
    t.home = { t.goto 0 0 with heading := 0 }
    ∧ (t.home).lines = t.lines ++ [⟨t.x, t.y, 0, 0, t.pen_color, t.pen_width⟩]
    ∧ (t.clear.home).lines = [⟨t.x, t.y, 0, 0, t.pen_color, t.pen_width⟩]
    ∧ (t.clear.home).lines.length = 1 := by
  refine ⟨rfl, ?_, ?_, ?_⟩
  · simp [TurtleState.home, TurtleState.goto, hpen]
  · simp [TurtleState.home, TurtleState.goto, TurtleState.clear, hpen]
  · simp [TurtleState.home, TurtleState.goto, TurtleState.clear, hpen]

/-- Witness for C10 at the pen-down turtle standing at (3, 4). -/
theorem home_appends_one_segment_witness :
    (({ TurtleState.new with x := 3, y := 4 } : TurtleState ℚ).home).lines =
      [⟨3, 4, 0, 0, colorWhite, 2⟩]
    ∧ (({ TurtleState.new with x := 3, y := 4 } : TurtleState ℚ).clear.home).lines.length = 1 :=
  have h := home_appends_one_segment ({ TurtleState.new with x := 3, y := 4 } : TurtleState ℚ)
    rfl (by decide)
  ⟨h.2.1, h.2.2.2⟩

/-! ### C9: `REPEAT 4 [FORWARD 50 RIGHT 90]` over the real-trigonometry model -/

theorem remEuclid_shift (a b : K) {m : K} (hm : m ≠ 0) :
    remEuclid (remEuclid a m + b) m = remEuclid (a + b) m := by
  rw [remEuclid, remEuclid, remEuclid]
  have h1 : (a - m * (⌊a / m⌋ : ℤ) + b) / m = (a + b) / m - (⌊a / m⌋ : ℤ) := by
    field_simp
    ring
  rw [h1, Int.floor_sub_int]
  push_cast
  ring

theorem remEuclid_eq_self {a m : K} (h0 : 0 ≤ a) (h1 : a < m) (hm : 0 < m) :
    remEuclid a m = a := by
  rw [remEuclid]
  have hz : ⌊a / m⌋ = 0 := by
    rw [Int.floor_eq_zero_iff]
    exact ⟨div_nonneg h0 hm.le, by rwa [div_lt_one hm]⟩
  simp [hz]

theorem remEuclid_add_self (a : K) {m : K} (hm : m ≠ 0) :
    remEuclid (a + m) m = remEuclid a m := by
  rw [remEuclid, remEuclid]
  have h1 : (a + m) / m = a / m + 1 := by field_simp
  rw [h1]
  have h2 : (⌊a / m + 1⌋ : ℤ) = ⌊a / m⌋ + 1 := by
    exact_mod_cast Int.floor_add_one (a / m)
  rw [h2]
  push_cast
  ring

theorem remE360_shift (a b : ℝ) :
    remEuclid (remEuclid a 360 + b) 360 = remEuclid (a + b) 360 :=
  remEuclid_shift a b (by norm_num)

theorem sinDeg_remE360 (a : ℝ) : sinDeg (remEuclid a 360) = sinDeg a := by
  rw [sinDeg, sinDeg, remEuclid]
  have h : (a - 360 * (⌊a / 360⌋ : ℤ)) * Real.pi / 180
      = a * Real.pi / 180 - (⌊a / 360⌋ : ℤ) * (2 * Real.pi) := by
    ring
  rw [h, Real.sin_sub_int_mul_two_pi]

theorem cosDeg_remE360 (a : ℝ) : cosDeg (remEuclid a 360) = cosDeg a := by
  rw [cosDeg, cosDeg, remEuclid]
  have h : (a - 360 * (⌊a / 360⌋ : ℤ)) * Real.pi / 180
      = a * Real.pi / 180 - (⌊a / 360⌋ : ℤ) * (2 * Real.pi) := by
    ring
  rw [h, Real.cos_sub_int_mul_two_pi]

theorem sinDeg_add_90 (a : ℝ) : sinDeg (a + 90) = cosDeg a := by
  rw [sinDeg, cosDeg]
  have h : (a + 90) * Real.pi / 180 = a * Real.pi / 180 + Real.pi / 2 := by ring
  rw [h, Real.sin_add_pi_div_two]

theorem cosDeg_add_90 (a : ℝ) : cosDeg (a + 90) = -sinDeg a := by
  rw [sinDeg, cosDeg]
  have h : (a + 90) * Real.pi / 180 = a * Real.pi / 180 + Real.pi / 2 := by ring
  rw [h, Real.cos_add_pi_div_two]

set_option maxRecDepth 40000 in
/-- The complete symbolic run of `REPEAT 4 [FORWARD 50 RIGHT 90]` through
the Logo executor: four forward-then-right rounds on the shared turtle. -/
theorem repeat_square_run (fns : FloatFns) (i : Interp) (t : TurtleState ℝ) :
    logoExecute ⟨realTrig, fns⟩ 1000 i (str "REPEAT 4 [FORWARD 50 RIGHT 90]") t =
      (i,
       ((((((((t.forward realTrig ((50 : ℚ) : ℝ)).right ((90 : ℚ) : ℝ)).forward
          realTrig ((50 : ℚ) : ℝ)).right ((90 : ℚ) : ℝ)).forward
          realTrig ((50 : ℚ) : ℝ)).right ((90 : ℚ) : ℝ)).forward
          realTrig ((50 : ℚ) : ℝ)).right ((90 : ℚ) : ℝ)),
       .ok .cont) := by
  rfl

/-- C9 (amended).  For every starting turtle state with the pen down and a
heading already normalised into `[0, 360)` — the invariant headings satisfy
except after a raw `SETHEADING` — executing
`REPEAT 4 [FORWARD 50 RIGHT 90]` through the Logo executor over the
real-trigonometry model returns the turtle exactly (hence within any
floating-point tolerance) to its starting position and heading, appends
exactly 4 drawn segments (the prior log is preserved as a prefix), leaves
the interpreter untouched and reports `Continue`. -/
theorem repeat_square_restores_state (fns : FloatFns) (i : Interp)
    (t : TurtleState ℝ) (hpen : t.pen_down = true)
    (h0 : 0 ≤ t.heading) (h1 : t.heading < 360) :
    (logoExecute ⟨realTrig, fns⟩ 1000 i (str "REPEAT 4 [FORWARD 50 RIGHT 90]") t).1 = i
    ∧ (logoExecute ⟨realTrig, fns⟩ 1000 i
        (str "REPEAT 4 [FORWARD 50 RIGHT 90]") t).2.1.x = t.x
    ∧ (logoExecute ⟨realTrig, fns⟩ 1000 i
        (str "REPEAT 4 [FORWARD 50 RIGHT 90]") t).2.1.y = t.y
    ∧ (logoExecute ⟨realTrig, fns⟩ 1000 i
        (str "REPEAT 4 [FORWARD 50 RIGHT 90]") t).2.1.heading = t.heading
    ∧ (logoExecute ⟨realTrig, fns⟩ 1000 i
        (str "REPEAT 4 [FORWARD 50 RIGHT 90]") t).2.1.lines.length = t.lines.length + 4
    ∧ (logoExecute ⟨realTrig, fns⟩ 1000 i
        (str "REPEAT 4 [FORWARD 50 RIGHT 90]") t).2.1.lines.take t.lines.length = t.lines
    ∧ (logoExecute ⟨realTrig, fns⟩ 1000 i
        (str "REPEAT 4 [FORWARD 50 RIGHT 90]") t).2.2 = .ok .cont := by
  rw [repeat_square_run]
  have hc50 : ((50 : ℚ) : ℝ) = 50 := by norm_num
  have hc90 : ((90 : ℚ) : ℝ) = 90 := by norm_num
  refine ⟨rfl, ?_, ?_, ?_, ?_, ?_, rfl⟩
  · simp only [TurtleState.forward, TurtleState.right, realTrig, hc50, hc90,
      remE360_shift, sinDeg_remE360, cosDeg_remE360, sinDeg_add_90, cosDeg_add_90]
    ring
  · simp only [TurtleState.forward, TurtleState.right, realTrig, hc50, hc90,
      remE360_shift, sinDeg_remE360, cosDeg_remE360, sinDeg_add_90, cosDeg_add_90]
    ring
  · simp only [TurtleState.forward, TurtleState.right, realTrig, hc90, remE360_shift]
    have hsum : t.heading + 90 + 90 + 90 + 90 = t.heading + 360 := by ring
    rw [hsum, remEuclid_add_self _ (by norm_num), remEuclid_eq_self h0 h1 (by norm_num)]
  · simp [TurtleState.forward, TurtleState.right, hpen]
  · simp only [TurtleState.forward, TurtleState.right, hpen, if_true]
    rw [List.append_assoc, List.append_assoc, List.append_assoc, List.take_left]

/-- Witness for C9 (amended) at the default turtle (pen down, heading 0). -/
theorem repeat_square_restores_state_witness :
    (logoExecute ⟨realTrig, zeroFns⟩ 1000 Interp.new
        (str "REPEAT 4 [FORWARD 50 RIGHT 90]") (TurtleState.new : TurtleState ℝ)).2.1.heading
      = (TurtleState.new : TurtleState ℝ).heading
    ∧ (logoExecute ⟨realTrig, zeroFns⟩ 1000 Interp.new
        (str "REPEAT 4 [FORWARD 50 RIGHT 90]") (TurtleState.new : TurtleState ℝ)).2.1.lines.length
      = (TurtleState.new : TurtleState ℝ).lines.length + 4 :=
  have h := repeat_square_restores_state zeroFns Interp.new TurtleState.new rfl
    (le_refl (0 : ℝ)) (by norm_num : (0 : ℝ) < 360)
  ⟨h.2.2.2.1, h.2.2.2.2.1⟩

/-- Counterexample to C9 as stated: from a pen-down turtle whose heading is
400 (reachable via `SETHEADING 400`), the run returns with heading 40, not
within any floating-point tolerance of the starting heading 400 — the
normalisation in `right` folds the start heading into `[0, 360)`. -/
theorem repeat_square_heading_not_preserved :
    (logoExecute ⟨realTrig, zeroFns⟩ 1000 Interp.new
        (str "REPEAT 4 [FORWARD 50 RIGHT 90]")
        ({ TurtleState.new with heading := 400 } : TurtleState ℝ)).2.1.heading = 40
    ∧ ({ TurtleState.new with heading := 400 } : TurtleState ℝ).heading = 400
    ∧ ((40 : ℝ) ≠ 400) := by
  refine ⟨?_, rfl, by norm_num⟩
  rw [repeat_square_run]
  have hc90 : ((90 : ℚ) : ℝ) = 90 := by norm_num
  simp only [TurtleState.forward, TurtleState.right, hc90, remE360_shift]
  have hsum : ({ TurtleState.new with heading := 400 } : TurtleState ℝ).heading
      + 90 + 90 + 90 + 90 = 760 := by
    norm_num [TurtleState.new]
  rw [hsum, remEuclid]
  have hfl : ⌊(760 : ℝ) / 360⌋ = 2 := by
    rw [Int.floor_eq_iff]
    norm_num
  rw [hfl]
  norm_num

end TimeWarp
